import Mathlib

/-!
csmrand: the seed source and the pool of `*rand.Rand` instances.

A shallow embedding of `randpool.go`.  The Go code is stateful; here every
function takes the part of the program state it touches and returns the new
one.  A Go panic is a value (`Result.panicked`) returned together with the
state reached when the panic was raised.

Three things the file depends on live in the Go standard library and are
embedded by their documented contract:

* `crypto/rand.Reader.Read(buf)` is an oracle: the `World` carries the list of
  outcomes that successive reads will deliver;
* `sync.Pool`: "Get selects an arbitrary item from the Pool, removes it from
  the Pool, and returns it to the caller.  Get may choose to ignore the pool
  and treat it as empty. [...] If Get would otherwise return nil and p.New is
  non-nil, Get returns the result of calling p.New."  The arbitrary selection
  is made explicit as a `Choice` argument, so the model stays executable;
* `math/rand.Rand`: an instance is a heap object holding its source and its
  position in the sequence; the value of a draw is kept symbolic (`Sample`).
-/

namespace Csmrand

/-! ## Data model -/

/-- A Go `byte`. -/
abbrev Byte := Fin 256

/-- What one call `crand.Reader.Read(buf)` delivers: the count `n`, whether
`err != nil`, and the bytes stored at the front of `buf`. -/
structure ReadOutcome where
  n : Int
  failed : Bool
  data : List Byte
deriving DecidableEq, Repr

/-- Why a call panicked. -/
inductive PanicCause where
  /-- The explicit panic of getSeed, "failed reading from crypto/rand.Reader". -/
  | entropyRead
  /-- A failed type assertion `x.(*rand.Rand)`. -/
  | typeAssertion
  /-- A method call through a nil `*rand.Rand`. -/
  | nilDereference
deriving DecidableEq, Repr

/-- A call either returns a value or panics. -/
inductive Result (α : Type) where
  | ok (v : α)
  | panicked (c : PanicCause)
deriving DecidableEq, Repr

/-- The `rand.Source` behind a `*rand.Rand`. -/
inductive Source where
  /-- The source built by `rand.NewSource(seed)`. -/
  | rngSource (seed : Int)
  /-- The source `&CSStatefulRandSource{}`. -/
  | csStateful
deriving DecidableEq, Repr

/-- A `rand.Rand` object on the heap: its source and how many draws it has
served (its position in the sequence). -/
structure Rand where
  src : Source
  pos : Nat
deriving DecidableEq, Repr

/-- A `*rand.Rand`: `none` is the nil pointer, `some a` the object at heap
address `a`. -/
abbrev RandPtr := Option Nat

/-- A Go `interface{}` value as the pool stores it: the nil interface, a value
of dynamic type `*rand.Rand`, or a value of any other dynamic type. -/
inductive Iface where
  | nil
  | rand (r : RandPtr)
  | other (tag : Nat)
deriving DecidableEq, Repr

/-- The value of one `Float64` draw, kept symbolic: it is determined by the
seed of the source and the position of the draw (ordinary source), or by the
seed read for that draw (secure source). -/
inductive Sample where
  | ofRng (seed : Int) (pos : Nat)
  | ofSecure (seed : Int)
deriving DecidableEq, Repr

/-- An entry of the call log kept by the world. -/
inductive Call where
  /-- One `crand.Reader.Read(buf)` with `len(buf) = len`. -/
  | read (len : Nat)
  | getSeed
  | get
  | put (x : RandPtr)
  | float64 (x : RandPtr)
deriving DecidableEq, Repr

/-- Everything outside the pool: the entropy still to be delivered, the heap
of `rand.Rand` objects (address = index) and the log of calls made so far. -/
structure World where
  entropy : List ReadOutcome
  heap : List Rand
  calls : List Call
deriving DecidableEq, Repr

/-- A `sync.Pool`: the idle items and the `New` function (nil when `none`). -/
structure SyncPool where
  items : List Iface
  New : Option (World → Result Iface × World)

/-- The Go struct `RandPool`: a typed API over a `sync.Pool`. -/
structure RandPool where
  p : SyncPool

/-- The program state: the world and the pool under consideration. -/
structure St where
  w : World
  pool : RandPool

/-- The selection `sync.Pool.Get` makes: item number `i` of the idle items, or
none of them (the pool is ignored and treated as empty). -/
inductive Choice where
  | take (i : Nat)
  | ignore
deriving DecidableEq, Repr

/-! ## The seed source -/

/-- Append an entry to the call log. -/
def World.log (w : World) (c : Call) : World :=
  { w with calls := w.calls ++ [c] }

/-- The buffer `make([]byte, len)` after the reader stored `data` at its
front. -/
def fillBuf (len : Nat) (data : List Byte) : List Byte :=
  (data ++ List.replicate len 0).take len

/-- One `crand.Reader.Read(buf)` on a fresh zeroed buffer of `len` bytes:
returns `n`, whether `err != nil`, and the buffer afterwards.  With no outcome
left the read fails. -/
def readerRead (len : Nat) (w : World) : (Int × Bool × List Byte) × World :=
  match w.entropy with
  | [] => ((0, true, fillBuf len []), w.log (.read len))
  | o :: rest =>
    ((o.n, o.failed, fillBuf len o.data), { (w.log (.read len)) with entropy := rest })

/-- The byte `b[i]` as a `uint64`. -/
def byteAt (b : List Byte) (i : Nat) : Nat :=
  (b.getD i 0).val

/-- Go `binary.LittleEndian.Uint64(b)`:
`uint64(b[0]) | uint64(b[1])<<8 | ... | uint64(b[7])<<56`. -/
def littleEndianUint64 (b : List Byte) : Nat :=
  (byteAt b 0 ||| byteAt b 1 <<< 8 ||| byteAt b 2 <<< 16 ||| byteAt b 3 <<< 24 |||
    byteAt b 4 <<< 32 ||| byteAt b 5 <<< 40 ||| byteAt b 6 <<< 48 ||| byteAt b 7 <<< 56)
    % 2 ^ 64

/-- The Go conversion `int64(u)` of a `uint64`: the two's-complement
reinterpretation. -/
def int64 (u : Nat) : Int :=
  if u % 2 ^ 64 < 2 ^ 63 then (u % 2 ^ 64 : Nat) else ((u % 2 ^ 64 : Nat) : Int) - 2 ^ 64

/-- Go `getSeed`: one read of 8 bytes; panics when the read failed or was
short, otherwise returns the bytes as a little-endian `int64`. -/
def getSeed (w : World) : Result Int × World :=
  match readerRead 8 (w.log .getSeed) with
  | ((n, err, buf), w1) =>
    if err || n != 8 then (.panicked .entropyRead, w1)
    else (.ok (int64 (littleEndianUint64 buf)), w1)

/-! ## Instances -/

/-- Go `rand.New(src)`: allocates a new `rand.Rand` and returns its address. -/
def randNew (src : Source) (w : World) : RandPtr × World :=
  (some w.heap.length, { w with heap := w.heap ++ [{ src := src, pos := 0 }] })

/-- Advance the object at address `a` by one draw. -/
def advance (a : Nat) (w : World) : World :=
  { w with heap := w.heap.modify (fun r => { r with pos := r.pos + 1 }) a }

/-- Modelled from the spec: the type CSStatefulRandSource is declared outside
src/; section 4.2 says of it that the instance "is backed by a source that
itself calls SecureSeedSource on every underlying state refill".  A draw from
such an instance is one refill: one getSeed call, whose value determines the
sample, and whose panic propagates. -/
def secureDraw (a : Nat) (w : World) : Result Sample × World :=
  match getSeed w with
  | (.panicked c, w1) => (.panicked c, w1)
  | (.ok v, w1) => (.ok (.ofSecure v), advance a w1)

/-- Go `(*rand.Rand).Float64` on the pointer `x`: a nil pointer panics; an
ordinary source yields the next value of its sequence and advances; a secure
source draws through `secureDraw`. -/
def randFloat64 (x : RandPtr) (w : World) : Result Sample × World :=
  let w0 := w.log (.float64 x)
  match x with
  | none => (.panicked .nilDereference, w0)
  | some a =>
    match w0.heap[a]? with
    | none => (.panicked .nilDereference, w0)
    | some r =>
      match r.src with
      | .rngSource seed => (.ok (.ofRng seed r.pos), advance a w0)
      | .csStateful => secureDraw a w0

/-! ## The pool -/

/-- The `New` closure of `NewRandPool`:
`rand.New(rand.NewSource(getSeed()))`. -/
def standardNew (w : World) : Result Iface × World :=
  match getSeed w with
  | (.panicked c, w1) => (.panicked c, w1)
  | (.ok seed, w1) =>
    match randNew (.rngSource seed) w1 with
    | (r, w2) => (.ok (.rand r), w2)

/-- The `New` closure of `NewCSMRandPool`:
`rand.New(&CSStatefulRandSource{})`. -/
def secureNew (w : World) : Result Iface × World :=
  match randNew .csStateful w with
  | (r, w1) => (.ok (.rand r), w1)

/-- Go `NewRandPool`. -/
def NewRandPool : RandPool :=
  { p := { items := [], New := some standardNew } }

/-- Go `NewCSMRandPool`. -/
def NewCSMRandPool : RandPool :=
  { p := { items := [], New := some secureNew } }

/-- The item `sync.Pool.Get` selects, and the pool without it; the nil
interface when nothing is selected. -/
def SyncPool.select (c : Choice) (p : SyncPool) : Iface × SyncPool :=
  match c with
  | .ignore => (.nil, p)
  | .take i =>
    match p.items[i]? with
    | none => (.nil, p)
    | some x => (x, { p with items := p.items.eraseIdx i })

/-- Go `sync.Pool.Get`: the selected item; when that is nil and `New` is set,
the result of `New`. -/
def SyncPool.Get (c : Choice) (p : SyncPool) (w : World) : Result Iface × World × SyncPool :=
  match p.select c with
  | (x, p1) =>
    if x = .nil then
      match p.New with
      | none => (.ok .nil, w, p1)
      | some f =>
        match f w with
        | (r, w1) => (r, w1, p1)
    else (.ok x, w, p1)

/-- Go `sync.Pool.Put`: a nil interface is dropped, anything else joins the
idle items. -/
def SyncPool.Put (x : Iface) (p : SyncPool) : SyncPool :=
  if x = .nil then p else { p with items := x :: p.items }

/-- Go `(*RandPool).Get`: `p.p.Get().(*rand.Rand)`. -/
def RandPool.Get (c : Choice) (s : St) : Result RandPtr × St :=
  match s.pool.p.Get c (s.w.log .get) with
  | (.panicked e, w1, sp) => (.panicked e, { w := w1, pool := { p := sp } })
  | (.ok (.rand r), w1, sp) => (.ok r, { w := w1, pool := { p := sp } })
  | (.ok _, w1, sp) => (.panicked .typeAssertion, { w := w1, pool := { p := sp } })

/-- Go `(*RandPool).Put`: `p.p.Put(item)`; the pointer is converted to an
interface value of dynamic type `*rand.Rand`. -/
def RandPool.Put (item : RandPtr) (s : St) : St :=
  { w := s.w.log (.put item), pool := { p := s.pool.p.Put (.rand item) } }

/-- The Go struct `pooledRandFloater`. -/
structure pooledRandFloater where
  rndPool : RandPool

/-- Go `newPooledRandomFloater`. -/
def newPooledRandomFloater : pooledRandFloater :=
  { rndPool := NewRandPool }

/-- Go `(*pooledRandFloater).Float64`, on the state whose pool is
`prf.rndPool`.  A panic of Get leaves before the `defer` statement is reached;
once it is reached, the deferred Put runs when the draw returns and when it
panics. -/
def pooledRandFloater.Float64 (c : Choice) (s : St) : Result Sample × St :=
  match RandPool.Get c s with
  | (.panicked e, s1) => (.panicked e, s1)
  | (.ok rnd, s1) =>
    match randFloat64 rnd s1.w with
    | (r, w2) => (r, RandPool.Put rnd { s1 with w := w2 })

/-! ## Runs of operations -/

/-- The pool was created by one of the two constructors (its idle items may
have changed since). -/
def RandPool.constructed (p : RandPool) : Prop :=
  p.p.New = NewRandPool.p.New ∨ p.p.New = NewCSMRandPool.p.New

/-- How often getSeed has been called so far. -/
def World.seedCalls (w : World) : Nat :=
  w.calls.count .getSeed

/-- The instances that exist and are not idle in the pool: those in the hands
of callers. -/
def St.checkedOut (s : St) : List Nat :=
  (List.range s.w.heap.length).filter (fun a => decide (Iface.rand (some a) ∉ s.pool.p.items))

/-- What callers and the runtime can do to the state. -/
inductive Op where
  /-- A call of Get; `c` is the selection sync.Pool makes. -/
  | get (c : Choice)
  /-- A call of Put. -/
  | put (x : RandPtr)
  /-- A call of `x.Float64()` by a caller. -/
  | draw (x : RandPtr)
  /-- A caller builds an instance of its own, `rand.New(rand.NewSource(seed))`. -/
  | callerNew (seed : Int)
  /-- The runtime drops idle item number `i`: sync.Pool items "may be removed
  automatically at any time without notification". -/
  | evict (i : Nat)
deriving DecidableEq, Repr

/-- A run in progress: the state, and a record of what has happened to
instances: `given` are the instances Get has returned (latest first), `out`
those of them not put back since, `made` those the factory of the pool
constructed. -/
structure Run where
  st : St
  given : List RandPtr
  out : List RandPtr
  made : List RandPtr

/-- The run that starts in state `s`. -/
def Run.start (s : St) : Run :=
  { st := s, given := [], out := [], made := [] }

/-- One operation.  A panic of Get or of a draw is taken to be recovered by
the caller, so the run goes on from the state the panic left. -/
def Run.step (r : Run) : Op → Run
  | .get c =>
    match RandPool.Get c r.st with
    | (.ok x, s1) =>
      { st := s1, given := x :: r.given, out := x :: r.out,
        made := if (r.st.pool.p.select c).1 = .nil then x :: r.made else r.made }
    | (.panicked _, s1) => { r with st := s1 }
  | .put x => { r with st := RandPool.Put x r.st, out := r.out.erase x }
  | .draw x => { r with st := { r.st with w := (randFloat64 x r.st.w).2 } }
  | .callerNew seed => { r with st := { r.st with w := (randNew (.rngSource seed) r.st.w).2 } }
  | .evict i =>
    { r with st := { r.st with pool := { p := { r.st.pool.p with items := r.st.pool.p.items.eraseIdx i } } } }

/-- A sequence of operations, one after the other. -/
def Run.exec (r : Run) (ops : List Op) : Run :=
  ops.foldl Run.step r

/-- Correct usage: every Put returns an instance that Get handed out and that
has not been put back since. -/
def Run.correctUsage (r : Run) : List Op → Bool
  | [] => true
  | .put x :: ops => decide (x ∈ r.out) && (r.step (.put x)).correctUsage ops
  | op :: ops => (r.step op).correctUsage ops

/-- The seed getSeed builds from the 8 bytes of a successful read. -/
def seedOfBytes (b0 b1 b2 b3 b4 b5 b6 b7 : Byte) : Int :=
  int64 (littleEndianUint64 [b0, b1, b2, b3, b4, b5, b6, b7])

/-- Every idle item is a `*rand.Rand`: the only kind of value that Put and the
two factories hand to the sync.Pool. -/
def St.typed (s : St) : Prop :=
  ∀ it ∈ s.pool.p.items, ∃ x, it = Iface.rand x

/-- The seed getSeed builds from the outcome of a successful read. -/
def ReadOutcome.seed (o : ReadOutcome) : Int :=
  int64 (littleEndianUint64 (fillBuf 8 o.data))

/-- The idle instances and the instances handed out so far are pairwise
different, and all of them exist on the heap. -/
def Run.distinct (r : Run) : Prop :=
  r.st.pool.p.items.Nodup ∧
    (∀ a, Iface.rand (some a) ∈ r.st.pool.p.items → a < r.st.w.heap.length) ∧
    r.given.Nodup ∧
    (∀ x ∈ r.given, Iface.rand x ∉ r.st.pool.p.items) ∧
    (∀ a, some a ∈ r.given → a < r.st.w.heap.length)

/-- The source is the one the seeding strategy of pool `p` builds: for a pool
of NewRandPool an ordinary source seeded with the value getSeed makes of a
successful read among the entropy `e0`; for a pool of NewCSMRandPool the
secure source. -/
def RandPool.seededBy (p : RandPool) (e0 : List ReadOutcome) (src : Source) : Prop :=
  (p.p.New = NewRandPool.p.New ∧
      ∃ o ∈ e0, o.failed = false ∧ o.n = 8 ∧ src = .rngSource o.seed) ∨
    (p.p.New = NewCSMRandPool.p.New ∧ src = .csStateful)

/-- Every idle instance, every instance in the hands of a caller and every
instance Get ever returned was constructed by the factory of the pool, and
what the factory constructed carries a source of the pool's seeding strategy;
the entropy left is a tail of the entropy `e0` the run started with. -/
def Run.fromFactory (r : Run) (e0 : List ReadOutcome) : Prop :=
  (∀ x, Iface.rand x ∈ r.st.pool.p.items → x ∈ r.made) ∧
    (∀ x ∈ r.out, x ∈ r.made) ∧
    (∀ x ∈ r.given, x ∈ r.made) ∧
    (∀ x ∈ r.made, ∃ a obj, x = some a ∧ r.st.w.heap[a]? = some obj ∧
      r.st.pool.seededBy e0 obj.src) ∧
    ∃ j, r.st.w.entropy = e0.drop j

/-- The same world and the same pool, with no idle item. -/
def St.emptied (s : St) : St :=
  { w := s.w, pool := { p := { s.pool.p with items := [] } } }

/-! ## Concrete states -/

/-- A read that delivers the 8 bytes `b`. -/
def fullRead (b : List Byte) : ReadOutcome :=
  { n := 8, failed := false, data := b }

/-- A read that delivers only 3 bytes and reports no error. -/
def shortRead : ReadOutcome :=
  { n := 3, failed := false, data := [7, 7, 7] }

/-- A world with an empty heap whose next two reads succeed and whose third
read is short. -/
def sampleWorld : World :=
  { entropy := [fullRead [1, 2, 3, 4, 5, 6, 7, 8], fullRead [8, 7, 6, 5, 4, 3, 2, 255], shortRead],
    heap := [], calls := [] }

/-- A world in which the next read is short. -/
def starvedWorld : World :=
  { entropy := [shortRead], heap := [], calls := [] }

/-- A world holding one ordinary instance at address 0, with reads that
succeed. -/
def oneInstanceWorld : World :=
  { entropy := [fullRead [1, 2, 3, 4, 5, 6, 7, 8]],
    heap := [{ src := .rngSource 42, pos := 5 }], calls := [] }

/-- A pool of NewRandPool in which the instance at address 0 is idle. -/
def oneIdle : St :=
  { w := oneInstanceWorld, pool := { p := { NewRandPool.p with items := [.rand (some 0)] } } }

/-- A new pool of NewRandPool in the sample world. -/
def standardStart : St :=
  { w := sampleWorld, pool := NewRandPool }

/-- A new pool of NewCSMRandPool in the sample world. -/
def secureStart : St :=
  { w := sampleWorld, pool := NewCSMRandPool }

/-- A new pool of NewRandPool in a world whose next read is short. -/
def starvedStart : St :=
  { w := starvedWorld, pool := NewRandPool }

/-- The state of a floater made by newPooledRandomFloater in a world whose
next read is short. -/
def starvedFloater : St :=
  { w := starvedWorld, pool := newPooledRandomFloater.rndPool }

/-! ## Theorems: the seed source -/

theorem lor_shiftLeft_of_lt (acc b k : Nat) (h : acc < 2 ^ k) :
    acc ||| b <<< k = acc + b * 2 ^ k := by
  rw [Nat.shiftLeft_eq, Nat.lor_comm, Nat.mul_comm b, ← Nat.mul_add_lt_is_or h, Nat.add_comm]

theorem littleEndianUint64_eq_sum (b0 b1 b2 b3 b4 b5 b6 b7 : Byte) :
    littleEndianUint64 [b0, b1, b2, b3, b4, b5, b6, b7] =
      b0.val + b1.val * 2 ^ 8 + b2.val * 2 ^ 16 + b3.val * 2 ^ 24 + b4.val * 2 ^ 32 +
        b5.val * 2 ^ 40 + b6.val * 2 ^ 48 + b7.val * 2 ^ 56 := by
  have h0 := b0.isLt
  have h1 := b1.isLt
  have h2 := b2.isLt
  have h3 := b3.isLt
  have h4 := b4.isLt
  have h5 := b5.isLt
  have h6 := b6.isLt
  have h7 := b7.isLt
  simp only [littleEndianUint64, byteAt, List.getD_cons_zero, List.getD_cons_succ]
  rw [lor_shiftLeft_of_lt _ _ 8 (by omega), lor_shiftLeft_of_lt _ _ 16 (by omega),
    lor_shiftLeft_of_lt _ _ 24 (by omega), lor_shiftLeft_of_lt _ _ 32 (by omega),
    lor_shiftLeft_of_lt _ _ 40 (by omega), lor_shiftLeft_of_lt _ _ 48 (by omega),
    lor_shiftLeft_of_lt _ _ 56 (by omega)]
  omega

theorem fillBuf_eight (b0 b1 b2 b3 b4 b5 b6 b7 : Byte) :
    fillBuf 8 [b0, b1, b2, b3, b4, b5, b6, b7] = [b0, b1, b2, b3, b4, b5, b6, b7] := by
  simp [fillBuf]

theorem readerRead_calls (len : Nat) (w : World) :
    (readerRead len w).2.calls = w.calls ++ [.read len] ∧ (readerRead len w).2.heap = w.heap := by
  unfold readerRead
  cases w.entropy <;> simp [World.log]

/-- C2: whatever the single entropy read of getSeed reports, if it reports an
error or a count other than 8 then getSeed panics, in the state the read left,
and returns no seed; that read is the only one made. -/
theorem getSeed_panics_on_failed_or_short_read (w w1 : World) (n : Int) (err : Bool)
    (buf : List Byte) (hread : readerRead 8 (w.log .getSeed) = ((n, err, buf), w1))
    (hbad : err = true ∨ n ≠ 8) :
    getSeed w = (.panicked .entropyRead, w1) ∧ (∀ v, (getSeed w).1 ≠ .ok v) ∧
      w1.calls = w.calls ++ [.getSeed, .read 8] := by
  have hc := (readerRead_calls 8 (w.log .getSeed)).1
  rw [hread] at hc
  have hg : getSeed w = (.panicked .entropyRead, w1) := by
    unfold getSeed
    rw [hread]
    rcases hbad with h | h <;> simp [h]
  refine ⟨hg, ?_, ?_⟩
  · intro v
    rw [hg]
    simp
  · simpa [World.log] using hc

theorem getSeed_panics_on_failed_or_short_read_witness :
    getSeed starvedWorld =
        (.panicked .entropyRead,
          { entropy := [], heap := [], calls := [.getSeed, .read 8] }) ∧
      (∀ v, (getSeed starvedWorld).1 ≠ .ok v) ∧
      ([.getSeed, .read 8] : List Call) = starvedWorld.calls ++ [.getSeed, .read 8] :=
  getSeed_panics_on_failed_or_short_read starvedWorld
    { entropy := [], heap := [], calls := [.getSeed, .read 8] } 3 false [7, 7, 7, 0, 0, 0, 0, 0]
    (by decide) (Or.inr (by decide))

/-- C3: after a successful read of the 8 bytes b0..b7 (no error, n = 8), getSeed
has asked the reader for exactly 8 bytes, once, and returns the little-endian
value b0 + b1*2^8 + ... + b7*2^56 read as a two's-complement int64; the seed is
negative exactly when b7 >= 128; and different bytes give different seeds. -/
theorem getSeed_little_endian_int64 (w : World) (o : ReadOutcome) (rest : List ReadOutcome)
    (b0 b1 b2 b3 b4 b5 b6 b7 : Byte) (hw : w.entropy = o :: rest) (herr : o.failed = false)
    (hn : o.n = 8) (hdata : o.data = [b0, b1, b2, b3, b4, b5, b6, b7]) :
    (getSeed w).1 = .ok (seedOfBytes b0 b1 b2 b3 b4 b5 b6 b7) ∧
      (getSeed w).2.calls = w.calls ++ [.getSeed, .read 8] ∧
      (getSeed w).2.entropy = rest ∧
      seedOfBytes b0 b1 b2 b3 b4 b5 b6 b7 =
        (if b0.val + b1.val * 2 ^ 8 + b2.val * 2 ^ 16 + b3.val * 2 ^ 24 + b4.val * 2 ^ 32 +
            b5.val * 2 ^ 40 + b6.val * 2 ^ 48 + b7.val * 2 ^ 56 < 2 ^ 63 then
          ((b0.val + b1.val * 2 ^ 8 + b2.val * 2 ^ 16 + b3.val * 2 ^ 24 + b4.val * 2 ^ 32 +
            b5.val * 2 ^ 40 + b6.val * 2 ^ 48 + b7.val * 2 ^ 56 : Nat) : Int)
        else
          ((b0.val + b1.val * 2 ^ 8 + b2.val * 2 ^ 16 + b3.val * 2 ^ 24 + b4.val * 2 ^ 32 +
            b5.val * 2 ^ 40 + b6.val * 2 ^ 48 + b7.val * 2 ^ 56 : Nat) : Int) - 2 ^ 64) ∧
      (seedOfBytes b0 b1 b2 b3 b4 b5 b6 b7 < 0 ↔ 128 ≤ b7.val) ∧
      ∀ c0 c1 c2 c3 c4 c5 c6 c7 : Byte,
        seedOfBytes c0 c1 c2 c3 c4 c5 c6 c7 = seedOfBytes b0 b1 b2 b3 b4 b5 b6 b7 →
          c0 = b0 ∧ c1 = b1 ∧ c2 = b2 ∧ c3 = b3 ∧ c4 = b4 ∧ c5 = b5 ∧ c6 = b6 ∧ c7 = b7 := by
  have hval : ∀ a0 a1 a2 a3 a4 a5 a6 a7 : Byte,
      seedOfBytes a0 a1 a2 a3 a4 a5 a6 a7 =
        (if a0.val + a1.val * 2 ^ 8 + a2.val * 2 ^ 16 + a3.val * 2 ^ 24 + a4.val * 2 ^ 32 +
            a5.val * 2 ^ 40 + a6.val * 2 ^ 48 + a7.val * 2 ^ 56 < 2 ^ 63 then
          ((a0.val + a1.val * 2 ^ 8 + a2.val * 2 ^ 16 + a3.val * 2 ^ 24 + a4.val * 2 ^ 32 +
            a5.val * 2 ^ 40 + a6.val * 2 ^ 48 + a7.val * 2 ^ 56 : Nat) : Int)
        else
          ((a0.val + a1.val * 2 ^ 8 + a2.val * 2 ^ 16 + a3.val * 2 ^ 24 + a4.val * 2 ^ 32 +
            a5.val * 2 ^ 40 + a6.val * 2 ^ 48 + a7.val * 2 ^ 56 : Nat) : Int) - 2 ^ 64) := by
    intro a0 a1 a2 a3 a4 a5 a6 a7
    have h0 := a0.isLt
    have h1 := a1.isLt
    have h2 := a2.isLt
    have h3 := a3.isLt
    have h4 := a4.isLt
    have h5 := a5.isLt
    have h6 := a6.isLt
    have h7 := a7.isLt
    unfold seedOfBytes int64
    rw [littleEndianUint64_eq_sum]
    have hmod : (a0.val + a1.val * 2 ^ 8 + a2.val * 2 ^ 16 + a3.val * 2 ^ 24 + a4.val * 2 ^ 32 +
        a5.val * 2 ^ 40 + a6.val * 2 ^ 48 + a7.val * 2 ^ 56) % 2 ^ 64 =
        a0.val + a1.val * 2 ^ 8 + a2.val * 2 ^ 16 + a3.val * 2 ^ 24 + a4.val * 2 ^ 32 +
        a5.val * 2 ^ 40 + a6.val * 2 ^ 48 + a7.val * 2 ^ 56 := Nat.mod_eq_of_lt (by omega)
    rw [hmod]
  refine ⟨?_, ?_, ?_, hval _ _ _ _ _ _ _ _, ?_, ?_⟩
  · unfold getSeed readerRead
    simp [World.log, hw, herr, hn, hdata, fillBuf_eight, seedOfBytes]
  · unfold getSeed readerRead
    simp [World.log, hw, herr, hn]
  · unfold getSeed readerRead
    simp [World.log, hw, herr, hn]
  · rw [hval]
    have h0 := b0.isLt
    have h1 := b1.isLt
    have h2 := b2.isLt
    have h3 := b3.isLt
    have h4 := b4.isLt
    have h5 := b5.isLt
    have h6 := b6.isLt
    have h7 := b7.isLt
    split <;> omega
  · intro c0 c1 c2 c3 c4 c5 c6 c7 h
    rw [hval, hval] at h
    have h0 := b0.isLt
    have h1 := b1.isLt
    have h2 := b2.isLt
    have h3 := b3.isLt
    have h4 := b4.isLt
    have h5 := b5.isLt
    have h6 := b6.isLt
    have h7 := b7.isLt
    have g0 := c0.isLt
    have g1 := c1.isLt
    have g2 := c2.isLt
    have g3 := c3.isLt
    have g4 := c4.isLt
    have g5 := c5.isLt
    have g6 := c6.isLt
    have g7 := c7.isLt
    refine ⟨Fin.ext ?_, Fin.ext ?_, Fin.ext ?_, Fin.ext ?_, Fin.ext ?_, Fin.ext ?_, Fin.ext ?_,
      Fin.ext ?_⟩ <;> (split at h <;> split at h <;> omega)

theorem getSeed_little_endian_int64_witness :
    (getSeed sampleWorld).1 = .ok (seedOfBytes 1 2 3 4 5 6 7 8) ∧
      (seedOfBytes 1 2 3 4 5 6 7 8 < 0 ↔ 128 ≤ (8 : Byte).val) :=
  ⟨(getSeed_little_endian_int64 sampleWorld (fullRead [1, 2, 3, 4, 5, 6, 7, 8])
      [fullRead [8, 7, 6, 5, 4, 3, 2, 255], shortRead] 1 2 3 4 5 6 7 8 rfl rfl rfl rfl).1,
    (getSeed_little_endian_int64 sampleWorld (fullRead [1, 2, 3, 4, 5, 6, 7, 8])
      [fullRead [8, 7, 6, 5, 4, 3, 2, 255], shortRead] 1 2 3 4 5 6 7 8 rfl rfl rfl rfl).2.2.2.2.1⟩

/-! ## Theorems: single steps of the pool -/

theorem getSeed_ok (w : World) (o : ReadOutcome) (rest : List ReadOutcome)
    (hw : w.entropy = o :: rest) (herr : o.failed = false) (hn : o.n = 8) :
    getSeed w =
      (.ok o.seed, { entropy := rest, heap := w.heap, calls := w.calls ++ [.getSeed, .read 8] }) := by
  unfold getSeed readerRead
  simp [World.log, hw, herr, hn, ReadOutcome.seed]

theorem getSeed_frame (w : World) :
    (getSeed w).2.heap = w.heap ∧ (getSeed w).2.calls = w.calls ++ [.getSeed, .read 8] ∧
      ((getSeed w).1 = .panicked .entropyRead ∨ ∃ v, (getSeed w).1 = .ok v) := by
  obtain ⟨ent, heap, calls⟩ := w
  cases ent with
  | nil => simp [getSeed, readerRead, World.log]
  | cons o rest =>
    by_cases h : (o.failed || o.n != 8) = true
    · simp only [getSeed, readerRead, World.log]
      rw [if_pos h]
      simp
    · simp only [getSeed, readerRead, World.log]
      rw [if_neg h]
      simp

theorem Get_take_rand (s : St) (i : Nat) (x : RandPtr)
    (hi : s.pool.p.items[i]? = some (.rand x)) :
    RandPool.Get (.take i) s =
      (.ok x, { w := s.w.log .get,
                pool := { p := { s.pool.p with items := s.pool.p.items.eraseIdx i } } }) := by
  simp [RandPool.Get, SyncPool.Get, SyncPool.select, hi]

theorem Get_ignore_secure (s : St) (h : s.pool.p.New = some secureNew) :
    RandPool.Get .ignore s =
      (.ok (some s.w.heap.length),
        { w := { entropy := s.w.entropy, heap := s.w.heap ++ [{ src := .csStateful, pos := 0 }],
                 calls := s.w.calls ++ [.get] },
          pool := s.pool }) := by
  simp [RandPool.Get, SyncPool.Get, SyncPool.select, h, secureNew, randNew, World.log]

theorem Get_ignore_standard_ok (s : St) (o : ReadOutcome) (rest : List ReadOutcome)
    (h : s.pool.p.New = some standardNew) (hw : s.w.entropy = o :: rest)
    (herr : o.failed = false) (hn : o.n = 8) :
    RandPool.Get .ignore s =
      (.ok (some s.w.heap.length),
        { w := { entropy := rest, heap := s.w.heap ++ [{ src := .rngSource o.seed, pos := 0 }],
                 calls := s.w.calls ++ [.get, .getSeed, .read 8] },
          pool := s.pool }) := by
  have hg := getSeed_ok (s.w.log .get) o rest hw herr hn
  simp only [RandPool.Get, SyncPool.Get, SyncPool.select, h, standardNew, hg]
  simp [randNew, World.log]

theorem Get_ignore_standard_panic (s : St) (h : s.pool.p.New = some standardNew)
    (hbad : (getSeed (s.w.log .get)).1 = .panicked .entropyRead) :
    RandPool.Get .ignore s =
      (.panicked .entropyRead, { w := (getSeed (s.w.log .get)).2, pool := s.pool }) := by
  simp only [RandPool.Get, SyncPool.Get, SyncPool.select, h, standardNew]
  generalize getSeed (s.w.log .get) = g at hbad
  obtain ⟨r, w1⟩ := g
  simp only at hbad
  subst hbad
  simp

theorem Get_take_beyond (s : St) (i : Nat) (hi : s.pool.p.items.length ≤ i) :
    RandPool.Get (.take i) s = RandPool.Get .ignore s := by
  have : s.pool.p.items[i]? = none := List.getElem?_eq_none hi
  simp [RandPool.Get, SyncPool.Get, SyncPool.select, this]

theorem Get_ignore_standard (s : St) (h : s.pool.p.New = some standardNew) :
    RandPool.Get .ignore s =
      match getSeed (s.w.log .get) with
      | (.panicked e, w1) => (.panicked e, { w := w1, pool := s.pool })
      | (.ok v, w1) =>
        (.ok (some w1.heap.length),
          { w := { w1 with heap := w1.heap ++ [{ src := .rngSource v, pos := 0 }] },
            pool := s.pool }) := by
  simp only [RandPool.Get, SyncPool.Get, SyncPool.select, h, standardNew]
  generalize getSeed (s.w.log .get) = g
  obtain ⟨r, w1⟩ := g
  cases r <;> simp [randNew]

theorem Get_empty (s : St) (c : Choice) (h : s.pool.p.items = []) :
    RandPool.Get c s = RandPool.Get .ignore s := by
  cases c with
  | ignore => rfl
  | take i => exact Get_take_beyond s i (by simp [h])

theorem Get_ignore_constructed (s : St) (hcon : s.pool.constructed) :
    (RandPool.Get .ignore s).2.pool = s.pool ∧
      ∀ x, (RandPool.Get .ignore s).1 = .ok x →
        x = some s.w.heap.length ∧
          (RandPool.Get .ignore s).2.w.heap.length = s.w.heap.length + 1 := by
  rcases hcon with h | h
  · have h1 : s.pool.p.New = some standardNew := h
    rw [Get_ignore_standard s h1]
    have hf := getSeed_frame (s.w.log .get)
    generalize getSeed (s.w.log .get) = g at hf
    obtain ⟨r, w1⟩ := g
    cases r with
    | panicked e => simp
    | ok v =>
      have hh : w1.heap = s.w.heap := by simpa [World.log] using hf.1
      simp [hh]
  · have h1 : s.pool.p.New = some secureNew := h
    rw [Get_ignore_secure s h1]
    simp

/-- C4, the part that fails: with an idle instance present (address 0), Get
may still ignore it: it returns a newly constructed instance (address 1) that
was not idle, leaves the idle set as it was, and has called getSeed. -/
theorem Get_can_bypass_idle_instance :
    oneIdle.pool.p.items = [.rand (some 0)] ∧
      (RandPool.Get .ignore oneIdle).1 = .ok (some 1) ∧
      Iface.rand (some 1) ∉ oneIdle.pool.p.items ∧
      (RandPool.Get .ignore oneIdle).2.pool.p.items = oneIdle.pool.p.items ∧
      (RandPool.Get .ignore oneIdle).2.w.heap.length = oneIdle.w.heap.length + 1 ∧
      (RandPool.Get .ignore oneIdle).2.w.seedCalls = oneIdle.w.seedCalls + 1 := by
  decide

/-- C6, the part that fails: on a new pool of NewCSMRandPool the first two Gets
construct two instances over the secure source and getSeed is not called at
all. -/
theorem secure_construction_reads_no_seed :
    secureStart.pool.p.items = [] ∧
      (RandPool.Get .ignore secureStart).1 = .ok (some 0) ∧
      (RandPool.Get .ignore (RandPool.Get .ignore secureStart).2).1 = .ok (some 1) ∧
      (RandPool.Get .ignore (RandPool.Get .ignore secureStart).2).2.w.heap =
        [{ src := .csStateful, pos := 0 }, { src := .csStateful, pos := 0 }] ∧
      (RandPool.Get .ignore (RandPool.Get .ignore secureStart).2).2.w.calls = [.get, .get] ∧
      (RandPool.Get .ignore (RandPool.Get .ignore secureStart).2).2.w.seedCalls = 0 := by
  decide

/-- C6 (amended): on an empty pool of NewRandPool every Get calls getSeed
exactly once (one read of 8 bytes), and when the first two reads succeed the
first two instances are seeded from those two separate calls, the first from
the first read and the second from the second.  On an empty pool of
NewCSMRandPool a Get constructs the instance over the secure source and calls
getSeed zero times. -/
theorem construction_seed_calls (s : St) (c : Choice) (hidle : s.pool.p.items = []) :
    (s.pool.p.New = NewRandPool.p.New →
        (RandPool.Get c s).2.w.calls = s.w.calls ++ [.get, .getSeed, .read 8] ∧
          ∀ (c2 : Choice) (o1 o2 : ReadOutcome) (rest : List ReadOutcome),
            s.w.entropy = o1 :: o2 :: rest → o1.failed = false → o1.n = 8 →
            o2.failed = false → o2.n = 8 →
              (RandPool.Get c s).1 = .ok (some s.w.heap.length) ∧
                (RandPool.Get c2 (RandPool.Get c s).2).1 = .ok (some (s.w.heap.length + 1)) ∧
                (RandPool.Get c2 (RandPool.Get c s).2).2.w.heap =
                  s.w.heap ++ [{ src := .rngSource o1.seed, pos := 0 },
                    { src := .rngSource o2.seed, pos := 0 }] ∧
                (RandPool.Get c2 (RandPool.Get c s).2).2.w.calls =
                  s.w.calls ++ [.get, .getSeed, .read 8, .get, .getSeed, .read 8]) ∧
      (s.pool.p.New = NewCSMRandPool.p.New →
        RandPool.Get c s =
            (.ok (some s.w.heap.length),
              { w := { entropy := s.w.entropy,
                       heap := s.w.heap ++ [{ src := .csStateful, pos := 0 }],
                       calls := s.w.calls ++ [.get] },
                pool := s.pool }) ∧
          (RandPool.Get c s).2.w.seedCalls = s.w.seedCalls) := by
  rw [Get_empty s c hidle]
  constructor
  · intro h
    have h1 : s.pool.p.New = some standardNew := h
    constructor
    · rw [Get_ignore_standard s h1]
      have hf := getSeed_frame (s.w.log .get)
      generalize getSeed (s.w.log .get) = g at hf
      obtain ⟨r, w1⟩ := g
      cases r <;> simpa [World.log] using hf.2.1
    · intro c2 o1 o2 rest hw he1 hn1 he2 hn2
      rw [Get_ignore_standard_ok s o1 (o2 :: rest) h1 hw he1 hn1]
      simp only
      have key : ∀ w1 : World, w1.entropy = o2 :: rest →
          RandPool.Get c2 { w := w1, pool := s.pool } =
            (.ok (some w1.heap.length),
              { w := { entropy := rest,
                       heap := w1.heap ++ [{ src := .rngSource o2.seed, pos := 0 }],
                       calls := w1.calls ++ [.get, .getSeed, .read 8] },
                pool := s.pool }) := by
        intro w1 hw1
        rw [Get_empty { w := w1, pool := s.pool } c2 hidle,
          Get_ignore_standard_ok { w := w1, pool := s.pool } o2 rest h1 hw1 he2 hn2]
      rw [key _ rfl]
      simp
  · intro h
    have h1 : s.pool.p.New = some secureNew := h
    rw [Get_ignore_secure s h1]
    simp [World.seedCalls, List.count_append]

theorem construction_seed_calls_witness :
    (RandPool.Get .ignore standardStart).1 = .ok (some 0) ∧
      (RandPool.Get (.take 0) (RandPool.Get .ignore standardStart).2).1 = .ok (some 1) ∧
      (RandPool.Get (.take 0) (RandPool.Get .ignore standardStart).2).2.w.calls =
        [.get, .getSeed, .read 8, .get, .getSeed, .read 8] :=
  have h := ((construction_seed_calls standardStart .ignore rfl).1 rfl).2 (.take 0)
    (fullRead [1, 2, 3, 4, 5, 6, 7, 8]) (fullRead [8, 7, 6, 5, 4, 3, 2, 255]) [shortRead]
    rfl rfl rfl rfl rfl
  ⟨h.1, h.2.1, h.2.2.2⟩

theorem Put_fields (x : RandPtr) (s : St) :
    (RandPool.Put x s).pool.p.items = .rand x :: s.pool.p.items ∧
      (RandPool.Put x s).w.heap = s.w.heap ∧
      (RandPool.Put x s).w.seedCalls = s.w.seedCalls := by
  simp [RandPool.Put, SyncPool.Put, World.log, World.seedCalls, List.count_append]

/-- C7: in every pool state and for every instance x, Put(x) puts x in front
of the idle items and leaves the other idle items, the factory, the whole heap
(so the sequence position of x and of every other instance) and the entropy
untouched; it logs one Put and no getSeed call; and a later Get can return x,
right away or after further Puts, without reading a seed. -/
theorem Put_adds_and_leaves_rest (s : St) (x : RandPtr) :
    (RandPool.Put x s).pool.p.items = .rand x :: s.pool.p.items ∧
      (RandPool.Put x s).pool.p.New = s.pool.p.New ∧
      (RandPool.Put x s).w.heap = s.w.heap ∧
      (RandPool.Put x s).w.entropy = s.w.entropy ∧
      (RandPool.Put x s).w.calls = s.w.calls ++ [.put x] ∧
      (RandPool.Put x s).w.seedCalls = s.w.seedCalls ∧
      ∀ ys : List RandPtr,
        (RandPool.Get (.take ys.length) (ys.foldr RandPool.Put (RandPool.Put x s))).1 = .ok x ∧
          (RandPool.Get (.take ys.length) (ys.foldr RandPool.Put (RandPool.Put x s))).2.w.heap =
            s.w.heap ∧
          (RandPool.Get (.take ys.length)
              (ys.foldr RandPool.Put (RandPool.Put x s))).2.w.seedCalls = s.w.seedCalls ∧
          (RandPool.Get (.take ys.length)
              (ys.foldr RandPool.Put (RandPool.Put x s))).2.pool.p.items =
            ys.map Iface.rand ++ s.pool.p.items := by
  refine ⟨by simp [RandPool.Put, SyncPool.Put], by simp [RandPool.Put, SyncPool.Put],
    by simp [RandPool.Put, World.log], by simp [RandPool.Put, World.log],
    by simp [RandPool.Put, World.log],
    by simp [RandPool.Put, World.log, World.seedCalls, List.count_append], ?_⟩
  intro ys
  have hfold : ∀ zs : List RandPtr,
      (zs.foldr RandPool.Put (RandPool.Put x s)).pool.p.items =
          zs.map Iface.rand ++ .rand x :: s.pool.p.items ∧
        (zs.foldr RandPool.Put (RandPool.Put x s)).w.heap = s.w.heap ∧
        (zs.foldr RandPool.Put (RandPool.Put x s)).w.seedCalls = s.w.seedCalls := by
    intro zs
    induction zs with
    | nil => simp [RandPool.Put, SyncPool.Put, World.log, World.seedCalls, List.count_append]
    | cons z zs ih =>
      obtain ⟨h1, h2, h3⟩ := ih
      rw [List.foldr_cons]
      obtain ⟨g1, g2, g3⟩ := Put_fields z (zs.foldr RandPool.Put (RandPool.Put x s))
      exact ⟨by rw [g1, h1]; simp, by rw [g2, h2], by rw [g3, h3]⟩
  obtain ⟨h1, h2, h3⟩ := hfold ys
  have hidx : (ys.foldr RandPool.Put (RandPool.Put x s)).pool.p.items[ys.length]? =
      some (.rand x) := by
    rw [h1, List.getElem?_append_right (by simp)]
    simp
  rw [Get_take_rand _ _ _ hidx]
  refine ⟨rfl, by simpa [World.log] using h2, ?_, ?_⟩
  · simpa [World.log, World.seedCalls, List.count_append] using h3
  · simp only [h1]
    rw [List.eraseIdx_append_of_length_le (by simp)]
    simp

/-! ## Theorems: what a Get can do -/

theorem mem_cons_eraseIdx {α : Type} (l : List α) (i : Nat) (x y : α) (h : l[i]? = some x) :
    y ∈ x :: l.eraseIdx i ↔ y ∈ l := by
  induction l generalizing i with
  | nil => simp at h
  | cons a l ih =>
    cases i with
    | zero =>
      simp at h
      subst h
      simp
    | succ i =>
      simp at h
      have := ih i h
      simp only [List.eraseIdx_cons_succ, List.mem_cons] at this ⊢
      constructor
      · rintro (h1 | h1 | h1)
        · exact Or.inr (this.1 (Or.inl h1))
        · exact Or.inl h1
        · exact Or.inr (this.1 (Or.inr h1))
      · rintro (h1 | h1)
        · exact Or.inr (Or.inl h1)
        · rcases this.2 h1 with h2 | h2
          · exact Or.inl h2
          · exact Or.inr (Or.inr h2)

theorem mem_eraseIdx_of_ne {α : Type} (l : List α) (i : Nat) (x y : α) (h : l[i]? = some x)
    (hne : y ≠ x) : y ∈ l.eraseIdx i ↔ y ∈ l := by
  rw [← mem_cons_eraseIdx l i x y h, List.mem_cons]
  constructor
  · exact Or.inr
  · rintro (h1 | h1)
    · exact absurd h1 hne
    · exact h1

theorem getSeed_cases (w : World) :
    ((getSeed w).1 = .panicked .entropyRead ∨
        ∃ o rest, w.entropy = o :: rest ∧ o.failed = false ∧ o.n = 8 ∧
          (getSeed w).1 = .ok o.seed) ∧
      (getSeed w).2 =
        { entropy := w.entropy.drop 1, heap := w.heap,
          calls := w.calls ++ [.getSeed, .read 8] } := by
  obtain ⟨ent, heap, calls⟩ := w
  cases ent with
  | nil => simp [getSeed, readerRead, World.log]
  | cons o rest =>
    by_cases h : (o.failed || o.n != 8) = true
    · simp only [getSeed, readerRead, World.log]
      rw [if_pos h]
      simp
    · simp only [getSeed, readerRead, World.log]
      rw [if_neg h]
      simp only [Bool.or_eq_true, bne_iff_ne, ne_eq, not_or, Bool.not_eq_true,
        Decidable.not_not] at h
      refine ⟨Or.inr ⟨o, rest, rfl, h.1, h.2, rfl⟩, by simp⟩

theorem factory_cases (f : World → Result Iface × World)
    (hf : f = standardNew ∨ f = secureNew) (w : World) :
    (f = standardNew ∧ (f w).1 = .panicked .entropyRead ∧ (f w).2.heap = w.heap ∧
        (f w).2.calls = w.calls ++ [.getSeed, .read 8] ∧
        (f w).2.entropy = w.entropy.drop 1) ∨
      ((f w).1 = .ok (.rand (some w.heap.length)) ∧
        ((f = standardNew ∧
            (∃ o rest, w.entropy = o :: rest ∧ o.failed = false ∧ o.n = 8 ∧
              (f w).2.heap = w.heap ++ [{ src := .rngSource o.seed, pos := 0 }]) ∧
            (f w).2.calls = w.calls ++ [.getSeed, .read 8] ∧
            (f w).2.entropy = w.entropy.drop 1) ∨
          (f = secureNew ∧ (f w).2.heap = w.heap ++ [{ src := .csStateful, pos := 0 }] ∧
            (f w).2.calls = w.calls ∧ (f w).2.entropy = w.entropy))) := by
  rcases hf with rfl | rfl
  · have hg := getSeed_cases w
    unfold standardNew
    generalize getSeed w = g at hg
    obtain ⟨r, w1⟩ := g
    obtain ⟨h1, h2⟩ := hg
    simp only at h1 h2
    subst h2
    rcases h1 with h1 | ⟨o, rest, ho, he, hn, h1⟩
    · subst h1
      left
      exact ⟨rfl, rfl, rfl, rfl, rfl⟩
    · subst h1
      right
      exact ⟨by simp [randNew], Or.inl ⟨rfl, ⟨o, rest, ho, he, hn, by simp [randNew]⟩,
        by simp [randNew], by simp [randNew]⟩⟩
  · right
    exact ⟨by simp [secureNew, randNew], Or.inr ⟨rfl, by simp [secureNew, randNew],
      by simp [secureNew, randNew], by simp [secureNew, randNew]⟩⟩

theorem Get_of_select_nil (s : St) (c : Choice) (p1 : SyncPool)
    (f : World → Result Iface × World) (hsel : s.pool.p.select c = (.nil, p1))
    (hN : s.pool.p.New = some f) :
    RandPool.Get c s =
      (match (f (s.w.log .get)).1 with
        | .panicked e => .panicked e
        | .ok (.rand r) => .ok r
        | .ok _ => .panicked .typeAssertion,
        { w := (f (s.w.log .get)).2, pool := { p := p1 } }) := by
  simp only [RandPool.Get, SyncPool.Get, hsel, hN]
  generalize f (s.w.log .get) = g
  obtain ⟨r, w1⟩ := g
  cases r with
  | panicked e => simp
  | ok v => cases v <;> simp

theorem select_cases (p : SyncPool) (c : Choice) :
    (p.select c = (.nil, p)) ∨
      ∃ i x, c = .take i ∧ p.items[i]? = some x ∧
        p.select c = (x, { p with items := p.items.eraseIdx i }) := by
  cases c with
  | ignore => exact Or.inl rfl
  | take i =>
    cases h : p.items[i]? with
    | none => exact Or.inl (by simp [SyncPool.select, h])
    | some x => exact Or.inr ⟨i, x, rfl, h, by simp [SyncPool.select, h]⟩

/-- Every Get on a pool made by one of the constructors does one of four
things: it hands out the selected idle instance; it panics on a selected item
that is not a `*rand.Rand`; or nothing is selected and the factory runs, which
either panics in getSeed or yields a new instance at the next free address. -/
theorem Get_cases (s : St) (c : Choice) (hcon : s.pool.constructed) :
    (∃ i x, s.pool.p.items[i]? = some (.rand x) ∧ (s.pool.p.select c).1 = .rand x ∧
        RandPool.Get c s =
          (.ok x, { w := s.w.log .get,
                    pool := { p := { s.pool.p with items := s.pool.p.items.eraseIdx i } } })) ∨
      (∃ i t, s.pool.p.items[i]? = some (.other t) ∧
        RandPool.Get c s =
          (.panicked .typeAssertion,
            { w := s.w.log .get,
              pool := { p := { s.pool.p with items := s.pool.p.items.eraseIdx i } } })) ∨
      ((s.pool.p.select c).1 = .nil ∧
        (RandPool.Get c s).2.pool.p.New = s.pool.p.New ∧
        ((RandPool.Get c s).2.pool.p.items = s.pool.p.items ∨
          ∃ i, s.pool.p.items[i]? = some .nil ∧
            (RandPool.Get c s).2.pool.p.items = s.pool.p.items.eraseIdx i) ∧
        ((s.pool.p.New = some standardNew ∧
            (RandPool.Get c s).1 = .panicked .entropyRead ∧
            (RandPool.Get c s).2.w.heap = s.w.heap ∧
            (RandPool.Get c s).2.w.calls = s.w.calls ++ [.get, .getSeed, .read 8] ∧
            (RandPool.Get c s).2.w.entropy = s.w.entropy.drop 1) ∨
          ((RandPool.Get c s).1 = .ok (some s.w.heap.length) ∧
            ((s.pool.p.New = some standardNew ∧
                (∃ o rest, s.w.entropy = o :: rest ∧ o.failed = false ∧ o.n = 8 ∧
                  (RandPool.Get c s).2.w.heap =
                    s.w.heap ++ [{ src := .rngSource o.seed, pos := 0 }]) ∧
                (RandPool.Get c s).2.w.calls = s.w.calls ++ [.get, .getSeed, .read 8] ∧
                (RandPool.Get c s).2.w.entropy = s.w.entropy.drop 1) ∨
              (s.pool.p.New = some secureNew ∧
                (RandPool.Get c s).2.w.heap = s.w.heap ++ [{ src := .csStateful, pos := 0 }] ∧
                (RandPool.Get c s).2.w.calls = s.w.calls ++ [.get] ∧
                (RandPool.Get c s).2.w.entropy = s.w.entropy))))) := by
  obtain ⟨f, hN, hf⟩ : ∃ f, s.pool.p.New = some f ∧ (f = standardNew ∨ f = secureNew) := by
    rcases hcon with h | h
    · exact ⟨standardNew, h, Or.inl rfl⟩
    · exact ⟨secureNew, h, Or.inr rfl⟩
  have miss : ∀ p1 : SyncPool, s.pool.p.select c = (.nil, p1) → p1.New = s.pool.p.New →
      (p1.items = s.pool.p.items ∨
          ∃ i, s.pool.p.items[i]? = some .nil ∧ p1.items = s.pool.p.items.eraseIdx i) →
      ((s.pool.p.select c).1 = .nil ∧
        (RandPool.Get c s).2.pool.p.New = s.pool.p.New ∧
        ((RandPool.Get c s).2.pool.p.items = s.pool.p.items ∨
          ∃ i, s.pool.p.items[i]? = some .nil ∧
            (RandPool.Get c s).2.pool.p.items = s.pool.p.items.eraseIdx i) ∧
        ((s.pool.p.New = some standardNew ∧
            (RandPool.Get c s).1 = .panicked .entropyRead ∧
            (RandPool.Get c s).2.w.heap = s.w.heap ∧
            (RandPool.Get c s).2.w.calls = s.w.calls ++ [.get, .getSeed, .read 8] ∧
            (RandPool.Get c s).2.w.entropy = s.w.entropy.drop 1) ∨
          ((RandPool.Get c s).1 = .ok (some s.w.heap.length) ∧
            ((s.pool.p.New = some standardNew ∧
                (∃ o rest, s.w.entropy = o :: rest ∧ o.failed = false ∧ o.n = 8 ∧
                  (RandPool.Get c s).2.w.heap =
                    s.w.heap ++ [{ src := .rngSource o.seed, pos := 0 }]) ∧
                (RandPool.Get c s).2.w.calls = s.w.calls ++ [.get, .getSeed, .read 8] ∧
                (RandPool.Get c s).2.w.entropy = s.w.entropy.drop 1) ∨
              (s.pool.p.New = some secureNew ∧
                (RandPool.Get c s).2.w.heap = s.w.heap ++ [{ src := .csStateful, pos := 0 }] ∧
                (RandPool.Get c s).2.w.calls = s.w.calls ++ [.get] ∧
                (RandPool.Get c s).2.w.entropy = s.w.entropy))))) := by
    intro p1 hsel hNew hit
    rw [Get_of_select_nil s c p1 f hsel hN]
    refine ⟨by rw [hsel], hNew, hit, ?_⟩
    rcases factory_cases f hf (s.w.log .get) with ⟨h0, h1, h2, h3, h4⟩ | ⟨h1, h2⟩
    · left
      subst h0
      exact ⟨hN, by simp [h1], by simpa [World.log] using h2, by simpa [World.log] using h3,
        by simpa [World.log] using h4⟩
    · right
      refine ⟨by rw [h1]; simp [World.log], ?_⟩
      rcases h2 with ⟨h0, ⟨o, rest, ho, he, hn, h3⟩, h4, h5⟩ | ⟨h0, h3, h4, h5⟩
      · left
        subst h0
        exact ⟨hN, ⟨o, rest, by simpa [World.log] using ho, he, hn,
          by simpa [World.log] using h3⟩, by simpa [World.log] using h4,
          by simpa [World.log] using h5⟩
      · right
        subst h0
        exact ⟨hN, by simpa [World.log] using h3, by simpa [World.log] using h4,
          by simpa [World.log] using h5⟩
  rcases select_cases s.pool.p c with hsel | ⟨i, x, hc, hi, hsel⟩
  · exact Or.inr (Or.inr (miss _ hsel rfl (Or.inl rfl)))
  · cases x with
    | nil => exact Or.inr (Or.inr (miss _ hsel rfl (Or.inr ⟨i, hi, rfl⟩)))
    | rand r =>
      left
      subst hc
      exact ⟨i, r, hi, by rw [hsel], Get_take_rand s i r hi⟩
    | other t =>
      right
      left
      subst hc
      exact ⟨i, t, hi, by simp [RandPool.Get, SyncPool.Get, SyncPool.select, hi]⟩

/-- C4 (amended): in a pool state with at least one idle instance, Get either
returns the idle instance sync.Pool selected, removes it from the idle set and
touches nothing else but the call log (no factory call, no new instance, no
seed read), or sync.Pool ignores the idle items and the factory is invoked as
on an empty pool: the result and the world are those of the factory run after
the Get was logged, the same as for the pool with no idle item, and the idle
set stays as it is.  For NewRandPool that is one getSeed call with one read and
either its panic or a new instance seeded with the value read; for
NewCSMRandPool a new instance over the secure source and no seed read.  Every
idle instance can be the one selected. -/
theorem Get_reuses_selected_or_constructs (s : St) (c : Choice)
    (hty : s.typed) (hcon : s.pool.constructed) :
    ((∃ i x, c = .take i ∧ s.pool.p.items[i]? = some (.rand x) ∧
          RandPool.Get c s =
            (.ok x, { w := s.w.log .get,
                      pool := { p := { s.pool.p with items := s.pool.p.items.eraseIdx i } } })) ∨
        ((c = .ignore ∨ ∃ i, c = .take i ∧ s.pool.p.items.length ≤ i) ∧
          RandPool.Get c s = RandPool.Get .ignore s ∧
          (RandPool.Get c s).2.pool = s.pool ∧
          (∀ x, (RandPool.Get c s).1 = .ok x →
            x = some s.w.heap.length ∧
              (RandPool.Get c s).2.w.heap.length = s.w.heap.length + 1) ∧
          (∃ f, s.pool.p.New = some f ∧
            RandPool.Get c s =
              (match (f (s.w.log .get)).1 with
                | .panicked e => .panicked e
                | .ok (.rand r) => .ok r
                | .ok _ => .panicked .typeAssertion,
                { w := (f (s.w.log .get)).2, pool := s.pool })) ∧
          (RandPool.Get c s).1 = (RandPool.Get c s.emptied).1 ∧
          (RandPool.Get c s).2.w = (RandPool.Get c s.emptied).2.w ∧
          ((s.pool.p.New = some standardNew ∧
              (RandPool.Get c s).2.w.calls = s.w.calls ++ [.get, .getSeed, .read 8] ∧
              (RandPool.Get c s).2.w.entropy = s.w.entropy.drop 1 ∧
              (((RandPool.Get c s).1 = .panicked .entropyRead ∧
                  (RandPool.Get c s).2.w.heap = s.w.heap) ∨
                ∃ o rest, s.w.entropy = o :: rest ∧ o.failed = false ∧ o.n = 8 ∧
                  (RandPool.Get c s).1 = .ok (some s.w.heap.length) ∧
                  (RandPool.Get c s).2.w.heap =
                    s.w.heap ++ [{ src := .rngSource o.seed, pos := 0 }])) ∨
            (s.pool.p.New = some secureNew ∧
              (RandPool.Get c s).1 = .ok (some s.w.heap.length) ∧
              (RandPool.Get c s).2.w.heap = s.w.heap ++ [{ src := .csStateful, pos := 0 }] ∧
              (RandPool.Get c s).2.w.calls = s.w.calls ++ [.get] ∧
              (RandPool.Get c s).2.w.entropy = s.w.entropy)))) ∧
      ∀ i, i < s.pool.p.items.length →
        ∃ x, s.pool.p.items[i]? = some (.rand x) ∧
          RandPool.Get (.take i) s =
            (.ok x, { w := s.w.log .get,
                      pool := { p := { s.pool.p with items := s.pool.p.items.eraseIdx i } } }) := by
  have hsel : ∀ i, i < s.pool.p.items.length →
      ∃ x, s.pool.p.items[i]? = some (.rand x) ∧
        RandPool.Get (.take i) s =
          (.ok x, { w := s.w.log .get,
                    pool := { p := { s.pool.p with items := s.pool.p.items.eraseIdx i } } }) := by
    intro i hi
    obtain ⟨x, hx⟩ := hty _ (List.getElem_mem hi)
    have hget : s.pool.p.items[i]? = some (.rand x) := by
      rw [List.getElem?_eq_getElem hi, hx]
    exact ⟨x, hget, Get_take_rand s i x hget⟩
  have bypass : (c = .ignore ∨ ∃ i, c = .take i ∧ s.pool.p.items.length ≤ i) →
      ((c = .ignore ∨ ∃ i, c = .take i ∧ s.pool.p.items.length ≤ i) ∧
          RandPool.Get c s = RandPool.Get .ignore s ∧
          (RandPool.Get c s).2.pool = s.pool ∧
          (∀ x, (RandPool.Get c s).1 = .ok x →
            x = some s.w.heap.length ∧
              (RandPool.Get c s).2.w.heap.length = s.w.heap.length + 1) ∧
          (∃ f, s.pool.p.New = some f ∧
            RandPool.Get c s =
              (match (f (s.w.log .get)).1 with
                | .panicked e => .panicked e
                | .ok (.rand r) => .ok r
                | .ok _ => .panicked .typeAssertion,
                { w := (f (s.w.log .get)).2, pool := s.pool })) ∧
          (RandPool.Get c s).1 = (RandPool.Get c s.emptied).1 ∧
          (RandPool.Get c s).2.w = (RandPool.Get c s.emptied).2.w ∧
          ((s.pool.p.New = some standardNew ∧
              (RandPool.Get c s).2.w.calls = s.w.calls ++ [.get, .getSeed, .read 8] ∧
              (RandPool.Get c s).2.w.entropy = s.w.entropy.drop 1 ∧
              (((RandPool.Get c s).1 = .panicked .entropyRead ∧
                  (RandPool.Get c s).2.w.heap = s.w.heap) ∨
                ∃ o rest, s.w.entropy = o :: rest ∧ o.failed = false ∧ o.n = 8 ∧
                  (RandPool.Get c s).1 = .ok (some s.w.heap.length) ∧
                  (RandPool.Get c s).2.w.heap =
                    s.w.heap ++ [{ src := .rngSource o.seed, pos := 0 }])) ∨
            (s.pool.p.New = some secureNew ∧
              (RandPool.Get c s).1 = .ok (some s.w.heap.length) ∧
              (RandPool.Get c s).2.w.heap = s.w.heap ++ [{ src := .csStateful, pos := 0 }] ∧
              (RandPool.Get c s).2.w.calls = s.w.calls ++ [.get] ∧
              (RandPool.Get c s).2.w.entropy = s.w.entropy))) := by
    intro hc
    have hign : RandPool.Get c s = RandPool.Get .ignore s := by
      rcases hc with rfl | ⟨i, rfl, hi⟩
      · rfl
      · exact Get_take_beyond s i hi
    have hselnil : s.pool.p.select c = (.nil, s.pool.p) := by
      rcases hc with rfl | ⟨i, rfl, hi⟩
      · rfl
      · simp [SyncPool.select, List.getElem?_eq_none hi]
    obtain ⟨f, hN⟩ : ∃ f, s.pool.p.New = some f := by
      rcases hcon with h | h
      · exact ⟨standardNew, h⟩
      · exact ⟨secureNew, h⟩
    have hfac := Get_of_select_nil s c s.pool.p f hselnil hN
    have hempty : RandPool.Get c s.emptied =
        (match (f (s.w.log .get)).1 with
          | .panicked e => .panicked e
          | .ok (.rand r) => .ok r
          | .ok _ => .panicked .typeAssertion,
          { w := (f (s.w.log .get)).2, pool := s.emptied.pool }) := by
      rw [Get_empty s.emptied c rfl]
      exact Get_of_select_nil s.emptied .ignore s.emptied.pool.p f rfl hN
    have hold := Get_ignore_constructed s hcon
    rw [← hign] at hold
    refine ⟨hc, hign, hold.1, hold.2, ⟨f, hN, hfac⟩, by rw [hfac, hempty], by rw [hfac, hempty],
      ?_⟩
    rcases Get_cases s c hcon with ⟨i, x, -, hs, -⟩ | ⟨i, t, hi, -⟩ |
      ⟨-, -, -, ⟨h0, hr, hh, hcl, he⟩ | ⟨hr, ⟨h0, ⟨o, rest, ho, hf, hn, hh⟩, hcl, he⟩ |
        ⟨h0, hh, hcl, he⟩⟩⟩
    · rw [hselnil] at hs
      cases hs
    · obtain ⟨y, hy⟩ := hty _ (List.getElem?_mem hi)
      cases hy
    · exact Or.inl ⟨h0, hcl, he, Or.inl ⟨hr, hh⟩⟩
    · exact Or.inl ⟨h0, hcl, he, Or.inr ⟨o, rest, ho, hf, hn, hr, hh⟩⟩
    · exact Or.inr ⟨h0, hr, hh, hcl, he⟩
  refine ⟨?_, hsel⟩
  cases c with
  | ignore => exact Or.inr (bypass (Or.inl rfl))
  | take i =>
    by_cases hi : i < s.pool.p.items.length
    · left
      obtain ⟨x, hx, hg⟩ := hsel i hi
      exact ⟨i, x, rfl, hx, hg⟩
    · exact Or.inr (bypass (Or.inr ⟨i, rfl, Nat.le_of_not_lt hi⟩))

theorem Get_reuses_selected_or_constructs_witness :
    ∃ x, oneIdle.pool.p.items[0]? = some (.rand x) ∧
      RandPool.Get (.take 0) oneIdle =
        (.ok x, { w := oneIdle.w.log .get,
                  pool := { p := { oneIdle.pool.p with
                                   items := oneIdle.pool.p.items.eraseIdx 0 } } }) :=
  (Get_reuses_selected_or_constructs oneIdle (.take 0)
    (by intro it hit; exact ⟨some 0, by simpa [oneIdle] using hit⟩) (Or.inl rfl)).2 0 (by decide)

/-! ## Theorems: draws -/

theorem randFloat64_frame (x : RandPtr) (w : World) :
    (randFloat64 x w).2.heap.length = w.heap.length ∧
      ((randFloat64 x w).2.calls = w.calls ++ [.float64 x] ∨
        (randFloat64 x w).2.calls = w.calls ++ [.float64 x, .getSeed, .read 8]) := by
  cases x with
  | none => simp [randFloat64, World.log]
  | some a =>
    simp only [randFloat64, World.log]
    cases h : w.heap[a]? with
    | none => simp
    | some r =>
      obtain ⟨src, k⟩ := r
      cases src with
      | rngSource seed => simp [advance]
      | csStateful =>
        simp only [secureDraw]
        have hg := getSeed_frame
          { entropy := w.entropy, heap := w.heap, calls := w.calls ++ [.float64 (some a)] }
        generalize getSeed
          { entropy := w.entropy, heap := w.heap, calls := w.calls ++ [.float64 (some a)] } = g at hg
        obtain ⟨r, w1⟩ := g
        obtain ⟨h1, h2, -⟩ := hg
        simp only at h1 h2
        cases r <;> simp [advance, h1, h2]

theorem randFloat64_rng (a : Nat) (w : World) (seed : Int) (k : Nat)
    (h : w.heap[a]? = some { src := .rngSource seed, pos := k }) :
    randFloat64 (some a) w =
      (.ok (.ofRng seed k),
        { entropy := w.entropy,
          heap := w.heap.modify (fun r => { r with pos := r.pos + 1 }) a,
          calls := w.calls ++ [.float64 (some a)] }) := by
  simp [randFloat64, World.log, h, advance]

theorem checkedOut_eq_of (s t : St) (h : t.w.heap.length = s.w.heap.length)
    (hm : ∀ a, Iface.rand (some a) ∈ t.pool.p.items ↔ Iface.rand (some a) ∈ s.pool.p.items) :
    t.checkedOut = s.checkedOut := by
  unfold St.checkedOut
  rw [h]
  apply List.filter_congr
  intro a _
  simp [hm a]

theorem checkedOut_eq_of_grow (s t : St) (h : t.w.heap.length = s.w.heap.length + 1)
    (hnew : Iface.rand (some s.w.heap.length) ∈ t.pool.p.items)
    (hm : ∀ a, a < s.w.heap.length →
      (Iface.rand (some a) ∈ t.pool.p.items ↔ Iface.rand (some a) ∈ s.pool.p.items)) :
    t.checkedOut = s.checkedOut := by
  unfold St.checkedOut
  rw [h, List.range_succ, List.filter_append]
  have : List.filter (fun a => decide (Iface.rand (some a) ∉ t.pool.p.items))
      [s.w.heap.length] = [] := by
    simp [hnew]
  rw [this, List.append_nil]
  apply List.filter_congr
  intro a ha
  simp [hm a (List.mem_range.1 ha)]

/-- C10, the part that fails: on the pool of a new floater, when the entropy
read fails, Float64 panics inside Get; the log shows the Get and its getSeed
call, but no draw and no Put, and no instance is in the idle set. -/
theorem pooled_Float64_without_draw_or_Put :
    (pooledRandFloater.Float64 .ignore starvedFloater).1 = .panicked .entropyRead ∧
      (pooledRandFloater.Float64 .ignore starvedFloater).2.w.calls =
        [.get, .getSeed, .read 8] ∧
      (pooledRandFloater.Float64 .ignore starvedFloater).2.pool.p.items = [] ∧
      (pooledRandFloater.Float64 .ignore starvedFloater).2.w.heap = [] := by
  decide

/-- C10 (amended): on a pool made by one of the constructors, when the Get of
Float64 returns an instance x, the call is that one Get, one draw on x and one
Put of x, and its result is the result of the draw, value or panic alike: the
Put is made in both cases.  Afterwards x is in the idle set and the
checked-out instances are the same as before the call.  When the Get panics
the call ends with that panic, in the state the Get left, without a draw or a
Put. -/
theorem pooled_Float64_brackets_draw (s : St) (c : Choice) (hcon : s.pool.constructed) :
    (∀ x s1, RandPool.Get c s = (.ok x, s1) →
        pooledRandFloater.Float64 c s =
            ((randFloat64 x s1.w).1,
              RandPool.Put x { s1 with w := (randFloat64 x s1.w).2 }) ∧
          (pooledRandFloater.Float64 c s).2.w.calls.count .get = s.w.calls.count .get + 1 ∧
          (∀ y, (pooledRandFloater.Float64 c s).2.w.calls.count (.float64 y) =
            s.w.calls.count (.float64 y) + if y = x then 1 else 0) ∧
          (∀ y, (pooledRandFloater.Float64 c s).2.w.calls.count (.put y) =
            s.w.calls.count (.put y) + if y = x then 1 else 0) ∧
          (pooledRandFloater.Float64 c s).2.pool.p.items = .rand x :: s1.pool.p.items ∧
          (pooledRandFloater.Float64 c s).2.checkedOut = s.checkedOut) ∧
      ∀ e s1, RandPool.Get c s = (.panicked e, s1) →
        pooledRandFloater.Float64 c s = (.panicked e, s1) := by
  constructor
  · intro x s1 hget
    have hF : pooledRandFloater.Float64 c s =
        ((randFloat64 x s1.w).1, RandPool.Put x { s1 with w := (randFloat64 x s1.w).2 }) := by
      simp [pooledRandFloater.Float64, hget]
    obtain ⟨hlen, hdraw⟩ := randFloat64_frame x s1.w
    have hcalls : s1.w.calls = s.w.calls ++ [.get] ∨
        s1.w.calls = s.w.calls ++ [.get, .getSeed, .read 8] := by
      rcases Get_cases s c hcon with ⟨i, x', -, -, hg⟩ | ⟨i, t, -, hg⟩ |
        ⟨-, -, -, ⟨-, hr, -, -, -⟩ | ⟨-, ⟨-, -, hc, -⟩ | ⟨-, -, hc, -⟩⟩⟩
      · rw [hget] at hg
        simp only [Prod.mk.injEq] at hg
        rw [hg.2]
        simp [World.log]
      · rw [hget] at hg
        simp at hg
      · rw [hget] at hr
        simp at hr
      · rw [hget] at hc
        exact Or.inr hc
      · rw [hget] at hc
        exact Or.inl hc
    have hitems : (pooledRandFloater.Float64 c s).2.pool.p.items = .rand x :: s1.pool.p.items := by
      rw [hF]
      simp [RandPool.Put, SyncPool.Put]
    have hheap : (pooledRandFloater.Float64 c s).2.w.heap.length = s1.w.heap.length := by
      rw [hF]
      simpa [RandPool.Put, World.log] using hlen
    have hfinal : (pooledRandFloater.Float64 c s).2.w.calls =
        (randFloat64 x s1.w).2.calls ++ [.put x] := by
      rw [hF]
      simp [RandPool.Put, World.log]
    refine ⟨hF, ?_, ?_, ?_, hitems, ?_⟩
    · rw [hfinal]
      rcases hdraw with hd | hd <;> rcases hcalls with hc | hc <;>
        simp [hd, hc, List.count_append, List.count_cons]
    · intro y
      rw [hfinal]
      by_cases hy : y = x
      · subst hy
        rcases hdraw with hd | hd <;> rcases hcalls with hc | hc <;>
          simp [hd, hc, List.count_append, List.count_cons]
      · have hy2 : ¬ x = y := fun h => hy h.symm
        rcases hdraw with hd | hd <;> rcases hcalls with hc | hc <;>
          simp [hd, hc, List.count_append, List.count_cons, hy, hy2]
    · intro y
      rw [hfinal]
      by_cases hy : y = x
      · subst hy
        rcases hdraw with hd | hd <;> rcases hcalls with hc | hc <;>
          simp [hd, hc, List.count_append, List.count_cons]
      · have hy2 : ¬ x = y := fun h => hy h.symm
        rcases hdraw with hd | hd <;> rcases hcalls with hc | hc <;>
          simp [hd, hc, List.count_append, List.count_cons, hy, hy2]
    · rcases Get_cases s c hcon with ⟨i, x', hi, -, hg⟩ | ⟨i, t, -, hg⟩ |
        ⟨-, -, hit, ⟨-, hr, -, -, -⟩ | ⟨hr, hh⟩⟩
      · rw [hget] at hg
        simp only [Prod.mk.injEq, Result.ok.injEq] at hg
        obtain ⟨hx, hs1⟩ := hg
        subst hx
        apply checkedOut_eq_of
        · rw [hheap, hs1]
          simp [World.log]
        · intro a
          rw [hitems, hs1]
          exact mem_cons_eraseIdx _ i _ _ hi
      · rw [hget] at hg
        simp at hg
      · rw [hget] at hr
        simp at hr
      · rw [hget] at hr hit hh
        simp only [Result.ok.injEq] at hr
        simp only at hit hh
        have hlen1 : s1.w.heap.length = s.w.heap.length + 1 := by
          rcases hh with ⟨-, ⟨o, rest, -, -, -, h1⟩, -⟩ | ⟨-, h1, -⟩ <;> simp [h1]
        apply checkedOut_eq_of_grow
        · rw [hheap, hlen1]
        · rw [hitems, hr]
          exact List.mem_cons_self _ _
        · intro a ha
          rw [hitems, hr, List.mem_cons]
          have hne : Iface.rand (some a) ≠ Iface.rand (some s.w.heap.length) := by
            intro h
            simp only [Iface.rand.injEq, Option.some.injEq] at h
            omega
          rcases hit with h1 | ⟨i, hi, h1⟩
          · rw [h1]
            exact ⟨fun h => h.resolve_left hne, Or.inr⟩
          · rw [h1, mem_eraseIdx_of_ne _ i _ _ hi (by simp)]
            exact ⟨fun h => h.resolve_left hne, Or.inr⟩
  · intro e s1 hget
    simp [pooledRandFloater.Float64, hget]

theorem pooled_Float64_brackets_draw_witness :
    pooledRandFloater.Float64 (.take 0) oneIdle =
        ((randFloat64 (some 0) (oneIdle.w.log .get)).1,
          RandPool.Put (some 0)
            { w := (randFloat64 (some 0) (oneIdle.w.log .get)).2, pool := NewRandPool }) ∧
      (pooledRandFloater.Float64 (.take 0) oneIdle).2.checkedOut = oneIdle.checkedOut :=
  have h := (pooled_Float64_brackets_draw oneIdle (.take 0) (Or.inl rfl)).1 (some 0)
    { w := oneIdle.w.log .get, pool := NewRandPool } rfl
  ⟨h.1, h.2.2.2.2.2⟩

/-! ## Theorems: runs -/

theorem exec_cons (r : Run) (op : Op) (ops : List Op) :
    r.exec (op :: ops) = (r.step op).exec ops := by
  simp [Run.exec]

theorem exec_uses (a : Nat) (seed : Int) :
    ∀ (ops : List Op) (r : Run) (k : Nat),
      (∀ op ∈ ops, op = .draw (some a) ∨ op = .put (some a)) →
      r.st.w.heap[a]? = some { src := .rngSource seed, pos := k } →
      (r.exec ops).st.w.seedCalls = r.st.w.seedCalls ∧
        (r.exec ops).st.w.heap[a]? =
          some { src := .rngSource seed, pos := k + ops.count (.draw (some a)) } := by
  intro ops
  induction ops with
  | nil =>
    intro r k _ h
    simp [Run.exec, h]
  | cons op ops ih =>
    intro r k hops h
    have hrest : ∀ o ∈ ops, o = .draw (some a) ∨ o = .put (some a) :=
      fun o ho => hops o (List.mem_cons_of_mem _ ho)
    rw [exec_cons]
    rcases hops op (List.mem_cons_self _ _) with rfl | rfl
    · have h1 : (r.step (.draw (some a))).st.w.heap[a]? =
          some { src := .rngSource seed, pos := k + 1 } := by
        simp [Run.step, randFloat64_rng a r.st.w seed k h, h]
      have h2 : (r.step (.draw (some a))).st.w.seedCalls = r.st.w.seedCalls := by
        simp [Run.step, randFloat64_rng a r.st.w seed k h, World.seedCalls, List.count_append]
      obtain ⟨i1, i2⟩ := ih _ (k + 1) hrest h1
      refine ⟨by rw [i1, h2], ?_⟩
      rw [i2, List.count_cons_self]
      congr 2
      omega
    · have h1 : (r.step (.put (some a))).st.w.heap[a]? =
          some { src := .rngSource seed, pos := k } := by
        simpa [Run.step, RandPool.Put, World.log] using h
      have h2 : (r.step (.put (some a))).st.w.seedCalls = r.st.w.seedCalls := by
        simp [Run.step, RandPool.Put, World.log, World.seedCalls, List.count_append]
      obtain ⟨i1, i2⟩ := ih _ k hrest h1
      refine ⟨by rw [i1, h2], ?_⟩
      rw [i2, List.count_cons_of_ne (by simp)]

/-- C5, the part that fails: on a new pool of NewRandPool, when the entropy
read is short, Get on the empty idle set panics; it constructs no instance and
returns none. -/
theorem standard_Get_can_panic_without_instance :
    starvedStart.pool.p.items = [] ∧
      (RandPool.Get .ignore starvedStart).1 = .panicked .entropyRead ∧
      (RandPool.Get .ignore starvedStart).2.w.heap = [] ∧
      (RandPool.Get .ignore starvedStart).2.w.calls = [.get, .getSeed, .read 8] := by
  decide

/-- C5 (amended): on a pool of NewRandPool, every Get on an empty idle set calls
getSeed exactly once.  When the entropy read succeeds, Get constructs exactly
one new instance, at the next free address, whose source is seeded with the
value of that call, and returns it; whatever draws and Puts are then made with
that instance, no further getSeed call is made and its source keeps that seed.
When getSeed panics, Get panics and no instance is constructed. -/
theorem standard_Get_seeds_once (s : St) (c : Choice)
    (hnew : s.pool.p.New = NewRandPool.p.New) (hidle : s.pool.p.items = []) :
    (RandPool.Get c s).2.w.calls = s.w.calls ++ [.get, .getSeed, .read 8] ∧
      (∀ o rest, s.w.entropy = o :: rest → o.failed = false → o.n = 8 →
        RandPool.Get c s =
            (.ok (some s.w.heap.length),
              { w := { entropy := rest,
                       heap := s.w.heap ++ [{ src := .rngSource o.seed, pos := 0 }],
                       calls := s.w.calls ++ [.get, .getSeed, .read 8] },
                pool := s.pool }) ∧
          ∀ ops : List Op,
            (∀ op ∈ ops, op = .draw (some s.w.heap.length) ∨ op = .put (some s.w.heap.length)) →
              ((Run.start (RandPool.Get c s).2).exec ops).st.w.seedCalls =
                  (RandPool.Get c s).2.w.seedCalls ∧
                ((Run.start (RandPool.Get c s).2).exec ops).st.w.heap[s.w.heap.length]? =
                  some { src := .rngSource o.seed,
                         pos := ops.count (.draw (some s.w.heap.length)) }) ∧
      ((getSeed (s.w.log .get)).1 = .panicked .entropyRead →
        (RandPool.Get c s).1 = .panicked .entropyRead ∧
          (RandPool.Get c s).2.w.heap = s.w.heap ∧ (RandPool.Get c s).2.pool = s.pool) := by
  have h1 : s.pool.p.New = some standardNew := hnew
  rw [Get_empty s c hidle]
  refine ⟨?_, ?_, ?_⟩
  · rw [Get_ignore_standard s h1]
    have hf := getSeed_frame (s.w.log .get)
    generalize getSeed (s.w.log .get) = g at hf
    obtain ⟨r, w1⟩ := g
    cases r <;> simpa [World.log] using hf.2.1
  · intro o rest hw he hn
    rw [Get_ignore_standard_ok s o rest h1 hw he hn]
    refine ⟨rfl, ?_⟩
    intro ops hops
    have := exec_uses s.w.heap.length o.seed ops
      (Run.start
        { w := { entropy := rest,
                 heap := s.w.heap ++ [{ src := .rngSource o.seed, pos := 0 }],
                 calls := s.w.calls ++ [.get, .getSeed, .read 8] },
          pool := s.pool }) 0 hops (by simp [Run.start])
    simpa [Run.start] using this
  · intro hbad
    rw [Get_ignore_standard_panic s h1 hbad]
    exact ⟨rfl, (getSeed_frame _).1, rfl⟩

theorem standard_Get_seeds_once_witness :
    RandPool.Get .ignore standardStart =
        (.ok (some 0),
          { w := { entropy := [fullRead [8, 7, 6, 5, 4, 3, 2, 255], shortRead],
                   heap := [{ src := .rngSource (fullRead [1, 2, 3, 4, 5, 6, 7, 8]).seed,
                              pos := 0 }],
                   calls := [.get, .getSeed, .read 8] },
            pool := NewRandPool }) ∧
      ((Run.start (RandPool.Get .ignore standardStart).2).exec
          [.draw (some 0), .put (some 0), .draw (some 0)]).st.w.seedCalls =
        (RandPool.Get .ignore standardStart).2.w.seedCalls :=
  have h := (standard_Get_seeds_once standardStart .ignore rfl rfl).2.1
    (fullRead [1, 2, 3, 4, 5, 6, 7, 8]) [fullRead [8, 7, 6, 5, 4, 3, 2, 255], shortRead]
    rfl rfl rfl
  ⟨h.1, (h.2 [.draw (some 0), .put (some 0), .draw (some 0)] (by decide)).1⟩

theorem Get_pool (s : St) (c : Choice) (hcon : s.pool.constructed) :
    (RandPool.Get c s).2.pool.p.New = s.pool.p.New ∧
      (RandPool.Get c s).2.pool.p.items.Sublist s.pool.p.items := by
  rcases Get_cases s c hcon with ⟨i, x, -, -, hg⟩ | ⟨i, t, -, hg⟩ | ⟨-, hN, hit, -⟩
  · rw [hg]
    exact ⟨rfl, List.eraseIdx_sublist _ _⟩
  · rw [hg]
    exact ⟨rfl, List.eraseIdx_sublist _ _⟩
  · refine ⟨hN, ?_⟩
    rcases hit with h | ⟨i, -, h⟩
    · rw [h]
    · rw [h]
      exact List.eraseIdx_sublist _ _

theorem step_get_st (r : Run) (c : Choice) :
    (r.step (.get c)).st = (RandPool.Get c r.st).2 := by
  simp only [Run.step]
  generalize RandPool.Get c r.st = g
  obtain ⟨res, s1⟩ := g
  cases res <;> rfl

theorem step_pool (r : Run) (op : Op) (hcon : r.st.pool.constructed) :
    (r.step op).st.pool.p.New = r.st.pool.p.New ∧
      ((r.step op).st.pool.p.items.Sublist r.st.pool.p.items ∨
        ∃ x, op = .put x ∧ (r.step op).st.pool.p.items = .rand x :: r.st.pool.p.items) := by
  cases op with
  | get c =>
    rw [step_get_st]
    exact ⟨(Get_pool r.st c hcon).1, Or.inl (Get_pool r.st c hcon).2⟩
  | put x => exact ⟨rfl, Or.inr ⟨x, rfl, by simp [Run.step, RandPool.Put, SyncPool.Put]⟩⟩
  | draw x => exact ⟨rfl, Or.inl (List.Sublist.refl _)⟩
  | callerNew seed => exact ⟨rfl, Or.inl (List.Sublist.refl _)⟩
  | evict i => exact ⟨rfl, Or.inl (List.eraseIdx_sublist _ _)⟩

theorem step_constructed (r : Run) (op : Op) (hcon : r.st.pool.constructed) :
    (r.step op).st.pool.constructed := by
  unfold RandPool.constructed
  rw [(step_pool r op hcon).1]
  exact hcon

theorem exec_typed :
    ∀ (ops : List Op) (r : Run), r.st.pool.constructed → r.st.typed →
      (r.exec ops).st.pool.constructed ∧ (r.exec ops).st.typed ∧
        ((∀ op ∈ ops, op ≠ .put none) → Iface.rand none ∉ r.st.pool.p.items →
          Iface.rand none ∉ (r.exec ops).st.pool.p.items) := by
  intro ops
  induction ops with
  | nil =>
    intro r hcon hty
    exact ⟨hcon, hty, fun _ h => h⟩
  | cons op ops ih =>
    intro r hcon hty
    rw [exec_cons]
    have hstep := (step_pool r op hcon).2
    have hty1 : (r.step op).st.typed := by
      intro it hit
      rcases hstep with h | ⟨x, -, h⟩
      · exact hty it (h.subset hit)
      · rw [h, List.mem_cons] at hit
        rcases hit with h1 | h1
        · exact ⟨x, h1⟩
        · exact hty it h1
    obtain ⟨i1, i2, i3⟩ := ih (r.step op) (step_constructed r op hcon) hty1
    refine ⟨i1, i2, ?_⟩
    intro hops hnil
    apply i3 (fun o ho => hops o (List.mem_cons_of_mem _ ho))
    rcases hstep with h | ⟨x, hx, h⟩
    · exact fun hin => hnil (h.subset hin)
    · rw [h, List.mem_cons]
      rintro (h1 | h1)
      · simp only [Iface.rand.injEq] at h1
        exact hops op (List.mem_cons_self _ _) (by rw [hx, ← h1])
      · exact hnil h1

theorem Get_ok_of_read_ok (s : St) (c : Choice) (hcon : s.pool.constructed) (hty : s.typed)
    (o : ReadOutcome) (rest : List ReadOutcome) (hw : s.w.entropy = o :: rest)
    (herr : o.failed = false) (hn : o.n = 8) : ∃ x, (RandPool.Get c s).1 = .ok x := by
  rcases select_cases s.pool.p c with hsel | ⟨i, x, hc, hi, -⟩
  · rcases hcon with h | h
    · have h1 : s.pool.p.New = some standardNew := h
      rw [Get_of_select_nil s c _ standardNew hsel h1]
      have hg := getSeed_ok (s.w.log .get) o rest hw herr hn
      refine ⟨some s.w.heap.length, ?_⟩
      simp only [standardNew, hg]
      simp [randNew, World.log]
    · have h1 : s.pool.p.New = some secureNew := h
      rw [Get_of_select_nil s c _ secureNew hsel h1]
      exact ⟨some s.w.heap.length, by simp [secureNew, randNew, World.log]⟩
  · obtain ⟨y, hy⟩ := hty x (List.getElem?_mem hi)
    subst hc hy
    exact ⟨y, by rw [Get_take_rand s i y hi]⟩

/-- C9: start from a pool made by NewRandPool or NewCSMRandPool, in any world,
and run any operations (Gets with any selection, Puts of any `*rand.Rand`,
draws, evictions, panics recovered).  In the state reached every idle item is a
`*rand.Rand`; a Get whose entropy read succeeds returns an instance; a Get can
panic only with the entropy panic of getSeed, never on the type assertion and
never because the pool is exhausted; and when nil was never Put the instance
returned is not nil. -/
theorem Get_total_on_reachable_states (pool : RandPool) (w0 : World) (ops : List Op)
    (c : Choice) (hpool : pool = NewRandPool ∨ pool = NewCSMRandPool) :
    ((Run.start { w := w0, pool := pool }).exec ops).st.typed ∧
      (∀ o rest, ((Run.start { w := w0, pool := pool }).exec ops).st.w.entropy = o :: rest →
        o.failed = false → o.n = 8 →
          ∃ x, (RandPool.Get c ((Run.start { w := w0, pool := pool }).exec ops).st).1 = .ok x) ∧
      (∀ e, (RandPool.Get c ((Run.start { w := w0, pool := pool }).exec ops).st).1 =
          .panicked e → e = .entropyRead) ∧
      ((∀ op ∈ ops, op ≠ .put none) →
        (RandPool.Get c ((Run.start { w := w0, pool := pool }).exec ops).st).1 ≠ .ok none) := by
  have hcon0 : (Run.start { w := w0, pool := pool }).st.pool.constructed := by
    rcases hpool with rfl | rfl
    · exact Or.inl rfl
    · exact Or.inr rfl
  have hty0 : (Run.start { w := w0, pool := pool }).st.typed := by
    intro it hit
    rcases hpool with rfl | rfl <;> simp [Run.start, NewRandPool, NewCSMRandPool] at hit
  have hnil0 : Iface.rand none ∉ (Run.start { w := w0, pool := pool }).st.pool.p.items := by
    rcases hpool with rfl | rfl <;> simp [Run.start, NewRandPool, NewCSMRandPool]
  obtain ⟨hcon, hty, hnil⟩ := exec_typed ops _ hcon0 hty0
  generalize ((Run.start { w := w0, pool := pool }).exec ops).st = s at hcon hty hnil
  refine ⟨hty, ?_, ?_, ?_⟩
  · intro o rest hw herr hn
    exact Get_ok_of_read_ok s c hcon hty o rest hw herr hn
  · intro e he
    rcases Get_cases s c hcon with ⟨i, x, -, -, hg⟩ | ⟨i, t, hi, -⟩ |
      ⟨-, -, -, ⟨-, hr, -⟩ | ⟨hr, -⟩⟩
    · rw [hg] at he
      simp at he
    · obtain ⟨y, hy⟩ := hty _ (List.getElem?_mem hi)
      cases hy
    · rw [hr] at he
      simp only [Result.panicked.injEq] at he
      exact he.symm
    · rw [hr] at he
      simp at he
  · intro hops hres
    have hn := hnil hops hnil0
    rcases Get_cases s c hcon with ⟨i, x, hi, -, hg⟩ | ⟨i, t, -, hg⟩ |
      ⟨-, -, -, ⟨-, hr, -⟩ | ⟨hr, -⟩⟩
    · rw [hg] at hres
      simp only [Result.ok.injEq] at hres
      subst hres
      exact hn (List.getElem?_mem hi)
    · rw [hg] at hres
      simp at hres
    · rw [hr] at hres
      simp at hres
    · rw [hr] at hres
      simp at hres

theorem Get_total_on_reachable_states_witness :
    ∃ x, (RandPool.Get .ignore
        ((Run.start { w := sampleWorld, pool := NewRandPool }).exec
          [.get .ignore, .put (some 0)]).st).1 = .ok x :=
  (Get_total_on_reachable_states NewRandPool sampleWorld [.get .ignore, .put (some 0)] .ignore
    (Or.inl rfl)).2.1 (fullRead [8, 7, 6, 5, 4, 3, 2, 255]) [shortRead] (by decide) rfl rfl

theorem nodup_not_mem_eraseIdx {α : Type} (l : List α) (i : Nat) (x : α) (hn : l.Nodup)
    (h : l[i]? = some x) : x ∉ l.eraseIdx i := by
  induction l generalizing i with
  | nil => simp at h
  | cons a l ih =>
    rw [List.nodup_cons] at hn
    cases i with
    | zero =>
      simp at h
      subst h
      simpa using hn.1
    | succ i =>
      simp only [List.getElem?_cons_succ] at h
      simp only [List.eraseIdx_cons_succ, List.mem_cons, not_or]
      refine ⟨?_, ih i hn.2 h⟩
      rintro rfl
      exact hn.1 (List.getElem?_mem h)

theorem step_distinct (r : Run) (op : Op) (hcon : r.st.pool.constructed)
    (hop : ∀ x, op ≠ .put x) (h : r.distinct) : (r.step op).distinct := by
  obtain ⟨hnd, hal, hgn, hdj, hga⟩ := h
  cases op with
  | put x => exact absurd rfl (hop x)
  | draw x =>
    have hl := (randFloat64_frame x r.st.w).1
    refine ⟨hnd, ?_, hgn, hdj, ?_⟩
    · intro a ha
      simp only [Run.step]
      rw [hl]
      exact hal a ha
    · intro a ha
      simp only [Run.step]
      rw [hl]
      exact hga a ha
  | callerNew seed =>
    refine ⟨hnd, ?_, hgn, hdj, ?_⟩
    · intro a ha
      have := hal a ha
      simp only [Run.step, randNew, List.length_append, List.length_singleton]
      omega
    · intro a ha
      have := hga a ha
      simp only [Run.step, randNew, List.length_append, List.length_singleton]
      omega
  | evict i =>
    refine ⟨hnd.sublist (List.eraseIdx_sublist _ _), ?_, hgn, ?_, hga⟩
    · intro a ha
      exact hal a (List.mem_of_mem_eraseIdx ha)
    · intro x hx hin
      exact hdj x hx (List.mem_of_mem_eraseIdx hin)
  | get c =>
    have hG := Get_cases r.st c hcon
    unfold Run.distinct
    simp only [Run.step]
    generalize RandPool.Get c r.st = g at hG
    obtain ⟨res, s1⟩ := g
    rcases hG with ⟨i, x, hi, -, hg⟩ | ⟨i, t, -, hg⟩ |
      ⟨-, -, hit, ⟨-, hr, hh, -⟩ | ⟨hr, hh⟩⟩
    · simp only [Prod.mk.injEq] at hg
      obtain ⟨rfl, rfl⟩ := hg
      have hxin : Iface.rand x ∈ r.st.pool.p.items := List.getElem?_mem hi
      refine ⟨hnd.sublist (List.eraseIdx_sublist _ _), ?_, ?_, ?_, ?_⟩
      · intro a ha
        exact hal a (List.mem_of_mem_eraseIdx ha)
      · exact List.nodup_cons.2 ⟨fun hx => hdj x hx hxin, hgn⟩
      · intro y hy hin
        rcases List.mem_cons.1 hy with rfl | hy
        · exact nodup_not_mem_eraseIdx _ i _ hnd hi hin
        · exact hdj y hy (List.mem_of_mem_eraseIdx hin)
      · intro a ha
        rcases List.mem_cons.1 ha with h1 | h1
        · exact hal a (by rw [h1]; exact hxin)
        · exact hga a h1
    · simp only [Prod.mk.injEq] at hg
      obtain ⟨rfl, rfl⟩ := hg
      refine ⟨hnd.sublist (List.eraseIdx_sublist _ _), ?_, hgn, ?_, hga⟩
      · intro a ha
        exact hal a (List.mem_of_mem_eraseIdx ha)
      · intro x hx hin
        exact hdj x hx (List.mem_of_mem_eraseIdx hin)
    · simp only at hit hr hh
      subst hr
      have hsub : s1.pool.p.items.Sublist r.st.pool.p.items := by
        rcases hit with h | ⟨i, -, h⟩
        · rw [h]
        · rw [h]
          exact List.eraseIdx_sublist _ _
      refine ⟨hnd.sublist hsub, ?_, hgn, ?_, ?_⟩
      · intro a ha
        rw [hh]
        exact hal a (hsub.subset ha)
      · intro x hx hin
        exact hdj x hx (hsub.subset hin)
      · intro a ha
        rw [hh]
        exact hga a ha
    · simp only at hit hr hh
      subst hr
      have hsub : s1.pool.p.items.Sublist r.st.pool.p.items := by
        rcases hit with h | ⟨i, -, h⟩
        · rw [h]
        · rw [h]
          exact List.eraseIdx_sublist _ _
      have hlen : s1.w.heap.length = r.st.w.heap.length + 1 := by
        rcases hh with ⟨-, ⟨o, rest, -, -, -, h1⟩, -⟩ | ⟨-, h1, -⟩ <;> simp [h1]
      dsimp only
      refine ⟨hnd.sublist hsub, ?_, ?_, ?_, ?_⟩
      · intro a ha
        have := hal a (hsub.subset ha)
        omega
      · refine List.nodup_cons.2 ⟨fun hx => ?_, hgn⟩
        have := hga _ hx
        omega
      · intro y hy hin
        rcases List.mem_cons.1 hy with rfl | hy
        · have := hal _ (hsub.subset hin)
          omega
        · exact hdj y hy (hsub.subset hin)
      · intro a ha
        rcases List.mem_cons.1 ha with h1 | h1
        · simp only [Option.some.injEq] at h1
          omega
        · have := hga a h1
          omega

theorem exec_distinct :
    ∀ (ops : List Op) (r : Run), r.st.pool.constructed → (∀ x, Op.put x ∉ ops) →
      r.distinct → (r.exec ops).distinct := by
  intro ops
  induction ops with
  | nil =>
    intro r _ _ h
    exact h
  | cons op ops ih =>
    intro r hcon hops h
    rw [exec_cons]
    have hop : ∀ x, op ≠ .put x := fun x hx => hops x (by rw [hx]; exact List.mem_cons_self _ _)
    exact ih (r.step op) (step_constructed r op hcon)
      (fun x hx => hops x (List.mem_cons_of_mem _ hx)) (step_distinct r op hcon hop h)

/-- C1: take a pool made by one of the constructors whose idle instances are
pairwise distinct and exist on the heap (a newly created pool in particular)
and make any number of Get calls, with any selections by sync.Pool, with no
Put in between (draws, evictions and instances built elsewhere may come in
between): the instances the Gets returned are pairwise distinct, and none of
them is idle in the pool. -/
theorem Gets_without_Put_return_distinct_instances (s : St) (ops : List Op)
    (hcon : s.pool.constructed) (hnodup : s.pool.p.items.Nodup)
    (halloc : ∀ a, Iface.rand (some a) ∈ s.pool.p.items → a < s.w.heap.length)
    (hnoput : ∀ x, Op.put x ∉ ops) :
    ((Run.start s).exec ops).given.Nodup ∧
      ∀ x ∈ ((Run.start s).exec ops).given,
        Iface.rand x ∉ ((Run.start s).exec ops).st.pool.p.items := by
  have h0 : (Run.start s).distinct := by
    refine ⟨hnodup, halloc, ?_, ?_, ?_⟩ <;> simp [Run.start]
  have h := exec_distinct ops (Run.start s) hcon hnoput h0
  exact ⟨h.2.2.1, h.2.2.2.1⟩

theorem Gets_without_Put_return_distinct_instances_witness :
    ((Run.start oneIdle).exec [.get (.take 0), .get .ignore]).given =
        [some 1, some 0] ∧
      ((Run.start oneIdle).exec [.get (.take 0), .get .ignore]).given.Nodup :=
  ⟨by decide,
    (Gets_without_Put_return_distinct_instances oneIdle
      [.get (.take 0), .get .ignore] (Or.inl rfl) (by decide)
      (by intro a ha; simp [oneIdle, oneInstanceWorld] at ha ⊢; omega)
      (by intro x hx; simp at hx)).1⟩

theorem modify_keeps (heap : List Rand) (b a : Nat) (obj : Rand) (h : heap[a]? = some obj) :
    ∃ k, (heap.modify (fun r => { r with pos := r.pos + 1 }) b)[a]? =
      some ({ src := obj.src, pos := k } : Rand) := by
  rw [List.getElem?_modify, h]
  by_cases hb : b = a
  · exact ⟨obj.pos + 1, by simp [hb]⟩
  · exact ⟨obj.pos, by simp [hb]⟩

theorem append_keeps (heap more : List Rand) (a : Nat) (obj : Rand) (h : heap[a]? = some obj) :
    ∃ k, (heap ++ more)[a]? = some ({ src := obj.src, pos := k } : Rand) := by
  obtain ⟨hlt, -⟩ := List.getElem?_eq_some.1 h
  exact ⟨obj.pos, by rw [List.getElem?_append_left hlt, h]⟩

theorem randFloat64_keeps (x : RandPtr) (w : World) :
    (∀ (a : Nat) (obj : Rand), w.heap[a]? = some obj →
        ∃ k, (randFloat64 x w).2.heap[a]? = some ({ src := obj.src, pos := k } : Rand)) ∧
      ∃ j, (randFloat64 x w).2.entropy = w.entropy.drop j := by
  have same : ∀ (a : Nat) (obj : Rand), w.heap[a]? = some obj →
      ∃ k, w.heap[a]? = some ({ src := obj.src, pos := k } : Rand) := fun a obj h => ⟨obj.pos, h⟩
  cases x with
  | none => exact ⟨by simpa [randFloat64, World.log] using same, 0, by simp [randFloat64, World.log]⟩
  | some b =>
    simp only [randFloat64, World.log]
    cases hb : w.heap[b]? with
    | none => exact ⟨by simpa using same, 0, by simp⟩
    | some r =>
      obtain ⟨src, k⟩ := r
      cases src with
      | rngSource seed =>
        exact ⟨fun a obj h => by simpa [advance] using modify_keeps w.heap b a obj h, 0,
          by simp [advance]⟩
      | csStateful =>
        simp only [secureDraw]
        have hg := (getSeed_cases
          { entropy := w.entropy, heap := w.heap, calls := w.calls ++ [.float64 (some b)] }).2
        generalize getSeed
          { entropy := w.entropy, heap := w.heap, calls := w.calls ++ [.float64 (some b)] } = g at hg
        obtain ⟨res, w1⟩ := g
        simp only at hg
        subst hg
        cases res with
        | panicked e => exact ⟨by simpa using same, 1, by simp⟩
        | ok v =>
          exact ⟨fun a obj h => by simpa [advance] using modify_keeps w.heap b a obj h, 1,
            by simp [advance]⟩

theorem seededBy_congr (p q : RandPool) (e0 : List ReadOutcome) (src : Source)
    (h : q.p.New = p.p.New) (hp : p.seededBy e0 src) : q.seededBy e0 src := by
  unfold RandPool.seededBy at hp ⊢
  rw [h]
  exact hp

theorem made_keeps (made : List RandPtr) (heap heap2 : List Rand) (p q : RandPool)
    (e0 : List ReadOutcome) (hN : q.p.New = p.p.New)
    (hheap : ∀ (a : Nat) (obj : Rand), heap[a]? = some obj →
      ∃ k, heap2[a]? = some ({ src := obj.src, pos := k } : Rand))
    (h : ∀ x ∈ made, ∃ a obj, x = some a ∧ heap[a]? = some obj ∧ p.seededBy e0 obj.src) :
    ∀ x ∈ made, ∃ a obj, x = some a ∧ heap2[a]? = some obj ∧ q.seededBy e0 obj.src := by
  intro x hx
  obtain ⟨a, obj, hxa, ha, hs⟩ := h x hx
  obtain ⟨k, hk⟩ := hheap a obj ha
  exact ⟨a, ({ src := obj.src, pos := k } : Rand), hxa, hk, seededBy_congr p q e0 _ hN hs⟩

theorem heap_same_keeps (heap : List Rand) :
    ∀ (a : Nat) (obj : Rand), heap[a]? = some obj → ∃ k, heap[a]? = some ({ src := obj.src, pos := k } : Rand) :=
  fun _ obj h => ⟨obj.pos, h⟩

theorem step_fromFactory (r : Run) (op : Op) (e0 : List ReadOutcome)
    (hcon : r.st.pool.constructed) (hput : ∀ x, op = .put x → x ∈ r.out)
    (h : r.fromFactory e0) : (r.step op).fromFactory e0 := by
  obtain ⟨hid, hout, hgiv, hmade, j, hent⟩ := h
  cases op with
  | put x =>
    have hx : x ∈ r.made := hout x (hput x rfl)
    refine ⟨?_, ?_, hgiv, ?_, j, hent⟩
    · intro y hy
      simp only [Run.step, RandPool.Put, SyncPool.Put] at hy
      simp only [reduceCtorEq, ↓reduceIte, List.mem_cons, Iface.rand.injEq] at hy
      rcases hy with rfl | hy
      · exact hx
      · exact hid y hy
    · intro y hy
      exact hout y (List.mem_of_mem_erase hy)
    · exact made_keeps r.made r.st.w.heap _ r.st.pool _ e0 rfl (heap_same_keeps _) hmade
  | draw x =>
    obtain ⟨hk, j2, hj2⟩ := randFloat64_keeps x r.st.w
    refine ⟨hid, hout, hgiv, ?_, j + j2, ?_⟩
    · exact made_keeps r.made r.st.w.heap _ r.st.pool _ e0 rfl hk hmade
    · simp only [Run.step]
      rw [hj2, hent, List.drop_drop]
  | callerNew seed =>
    refine ⟨hid, hout, hgiv, ?_, j, hent⟩
    exact made_keeps r.made r.st.w.heap _ r.st.pool _ e0 rfl
      (fun a obj ha => append_keeps r.st.w.heap _ a obj ha) hmade
  | evict i =>
    refine ⟨fun x hx => hid x (List.mem_of_mem_eraseIdx hx), hout, hgiv, ?_, j, hent⟩
    exact made_keeps r.made r.st.w.heap _ r.st.pool _ e0 rfl (heap_same_keeps _) hmade
  | get c =>
    have hG := Get_cases r.st c hcon
    unfold Run.fromFactory
    simp only [Run.step]
    generalize RandPool.Get c r.st = g at hG
    obtain ⟨res, s1⟩ := g
    rcases hG with ⟨i, x, hi, hsel, hg⟩ | ⟨i, t, -, hg⟩ |
      ⟨hsel, hN, hit, ⟨-, hr, hh, -, he⟩ | ⟨hr, hh⟩⟩
    · simp only [Prod.mk.injEq] at hg
      obtain ⟨rfl, rfl⟩ := hg
      have hx : x ∈ r.made := hid x (List.getElem?_mem hi)
      have hne : ¬ (r.st.pool.p.select c).1 = Iface.nil := by
        rw [hsel]
        simp
      dsimp only
      rw [if_neg hne]
      refine ⟨fun y hy => hid y (List.mem_of_mem_eraseIdx hy), ?_, ?_, ?_, j, hent⟩
      · intro y hy
        rcases List.mem_cons.1 hy with rfl | hy
        · exact hx
        · exact hout y hy
      · intro y hy
        rcases List.mem_cons.1 hy with rfl | hy
        · exact hx
        · exact hgiv y hy
      · exact made_keeps r.made r.st.w.heap _ r.st.pool _ e0 rfl (heap_same_keeps _) hmade
    · simp only [Prod.mk.injEq] at hg
      obtain ⟨rfl, rfl⟩ := hg
      dsimp only
      refine ⟨fun y hy => hid y (List.mem_of_mem_eraseIdx hy), hout, hgiv, ?_, j, hent⟩
      exact made_keeps r.made r.st.w.heap _ r.st.pool _ e0 rfl (heap_same_keeps _) hmade
    · simp only at hit hr hh hN he
      subst hr
      have hsub : s1.pool.p.items.Sublist r.st.pool.p.items := by
        rcases hit with h | ⟨i, -, h⟩
        · rw [h]
        · rw [h]
          exact List.eraseIdx_sublist _ _
      dsimp only
      refine ⟨fun y hy => hid y (hsub.subset hy), hout, hgiv, ?_, j + 1, ?_⟩
      · refine made_keeps r.made r.st.w.heap _ r.st.pool _ e0 hN ?_ hmade
        rw [hh]
        exact heap_same_keeps _
      · rw [he, hent, List.drop_drop]
    · simp only at hit hr hh hN
      subst hr
      have hsub : s1.pool.p.items.Sublist r.st.pool.p.items := by
        rcases hit with h | ⟨i, -, h⟩
        · rw [h]
        · rw [h]
          exact List.eraseIdx_sublist _ _
      dsimp only
      rw [if_pos hsel]
      have hnew : ∃ obj, s1.w.heap = r.st.w.heap ++ [obj] ∧ r.st.pool.seededBy e0 obj.src ∧
          ∃ j2, s1.w.entropy = e0.drop j2 := by
        rcases hh with ⟨h0, ⟨o, rest, ho, hf, hn, h1⟩, -, h2⟩ | ⟨h0, h1, -, h2⟩
        · refine ⟨_, h1, Or.inl ⟨h0, o, ?_, hf, hn, rfl⟩, j + 1, ?_⟩
          · apply List.mem_of_mem_drop (n := j)
            rw [← hent, ho]
            exact List.mem_cons_self _ _
          · rw [h2, hent, List.drop_drop]
        · exact ⟨_, h1, Or.inr ⟨h0, rfl⟩, j, by rw [h2, hent]⟩
      obtain ⟨obj, hheap, hseed, j2, hj2⟩ := hnew
      have hold := made_keeps r.made r.st.w.heap s1.w.heap r.st.pool s1.pool e0 hN
        (fun a o ha => by rw [hheap]; exact append_keeps r.st.w.heap _ a o ha) hmade
      have hmade2 : ∀ x ∈ some r.st.w.heap.length :: r.made,
          ∃ a o, x = some a ∧ s1.w.heap[a]? = some o ∧ s1.pool.seededBy e0 o.src := by
        intro y hy
        rcases List.mem_cons.1 hy with rfl | hy
        · exact ⟨r.st.w.heap.length, obj, rfl, by rw [hheap, List.getElem?_concat_length],
            seededBy_congr r.st.pool s1.pool e0 _ hN hseed⟩
        · exact hold y hy
      refine ⟨fun y hy => List.mem_cons_of_mem _ (hid y (hsub.subset hy)), ?_, ?_, hmade2,
        j2, hj2⟩
      · intro y hy
        rcases List.mem_cons.1 hy with rfl | hy
        · exact List.mem_cons_self _ _
        · exact List.mem_cons_of_mem _ (hout y hy)
      · intro y hy
        rcases List.mem_cons.1 hy with rfl | hy
        · exact List.mem_cons_self _ _
        · exact List.mem_cons_of_mem _ (hgiv y hy)

theorem exec_fromFactory (e0 : List ReadOutcome) :
    ∀ (ops : List Op) (r : Run), r.st.pool.constructed → r.correctUsage ops = true →
      r.fromFactory e0 → (r.exec ops).fromFactory e0 := by
  intro ops
  induction ops with
  | nil =>
    intro r _ _ h
    exact h
  | cons op ops ih =>
    intro r hcon huse h
    rw [exec_cons]
    have hput : ∀ x, op = .put x → x ∈ r.out := by
      intro x hx
      subst hx
      simp only [Run.correctUsage, Bool.and_eq_true, decide_eq_true_eq] at huse
      exact huse.1
    have hrest : (r.step op).correctUsage ops = true := by
      cases op with
      | put x =>
        simp only [Run.correctUsage, Bool.and_eq_true, decide_eq_true_eq] at huse
        exact huse.2
      | get c => simpa only [Run.correctUsage] using huse
      | draw x => simpa only [Run.correctUsage] using huse
      | callerNew seed => simpa only [Run.correctUsage] using huse
      | evict i => simpa only [Run.correctUsage] using huse
    exact ih (r.step op) (step_constructed r op hcon) hrest
      (step_fromFactory r op e0 hcon hput h)

/-- C8: start from a pool newly made by NewRandPool or NewCSMRandPool, in any
world, and run any operations under correct usage (every Put returns an
instance obtained by a Get on this pool and not put back since).  Then every
instance in the idle set, every instance in the hands of a caller, and every
instance Get ever returned was constructed by the factory of this pool, and
each of those exists on the heap with a source of the pool's seeding strategy:
for NewRandPool an ordinary source seeded with the getSeed value of a
successful read of the world's entropy, for NewCSMRandPool the secure source. -/
theorem pool_instances_come_from_factory (pool : RandPool) (w0 : World) (ops : List Op)
    (hpool : pool = NewRandPool ∨ pool = NewCSMRandPool)
    (huse : (Run.start { w := w0, pool := pool }).correctUsage ops = true) :
    (∀ x, Iface.rand x ∈ ((Run.start { w := w0, pool := pool }).exec ops).st.pool.p.items →
        x ∈ ((Run.start { w := w0, pool := pool }).exec ops).made) ∧
      (∀ x ∈ ((Run.start { w := w0, pool := pool }).exec ops).out,
        x ∈ ((Run.start { w := w0, pool := pool }).exec ops).made) ∧
      (∀ x ∈ ((Run.start { w := w0, pool := pool }).exec ops).given,
        x ∈ ((Run.start { w := w0, pool := pool }).exec ops).made) ∧
      (∀ x ∈ ((Run.start { w := w0, pool := pool }).exec ops).made,
        ∃ a obj, x = some a ∧
          ((Run.start { w := w0, pool := pool }).exec ops).st.w.heap[a]? = some obj ∧
          pool.seededBy w0.entropy obj.src) ∧
      ((Run.start { w := w0, pool := pool }).exec ops).st.typed := by
  have hcon0 : (Run.start { w := w0, pool := pool }).st.pool.constructed := by
    rcases hpool with rfl | rfl
    · exact Or.inl rfl
    · exact Or.inr rfl
  have hitems0 : (Run.start { w := w0, pool := pool }).st.pool.p.items = [] := by
    rcases hpool with rfl | rfl <;> rfl
  have h0 : (Run.start { w := w0, pool := pool }).fromFactory w0.entropy := by
    refine ⟨?_, ?_, ?_, ?_, 0, by simp [Run.start]⟩
    · intro x hx
      rw [hitems0] at hx
      simp at hx
    · simp [Run.start]
    · simp [Run.start]
    · simp [Run.start]
  have hty0 : (Run.start { w := w0, pool := pool }).st.typed := by
    intro it hit
    rw [hitems0] at hit
    simp at hit
  obtain ⟨h1, h2, h3, h4, -⟩ := exec_fromFactory w0.entropy ops _ hcon0 huse h0
  obtain ⟨hcon, hty, -⟩ := exec_typed ops _ hcon0 hty0
  refine ⟨h1, h2, h3, ?_, hty⟩
  intro x hx
  obtain ⟨a, obj, hxa, ha, hs⟩ := h4 x hx
  refine ⟨a, obj, hxa, ha, ?_⟩
  have hN : ∀ (ops : List Op) (r : Run), r.st.pool.constructed →
      (r.exec ops).st.pool.p.New = r.st.pool.p.New := by
    intro ops
    induction ops with
    | nil => intro r _; rfl
    | cons op ops ih =>
      intro r hc
      rw [exec_cons, ih _ (step_constructed r op hc), (step_pool r op hc).1]
  exact seededBy_congr _ pool _ _ (hN ops _ hcon0).symm hs

theorem pool_instances_come_from_factory_witness :
    ((Run.start { w := sampleWorld, pool := NewRandPool }).exec
        [.get .ignore, .draw (some 0), .put (some 0), .get (.take 0)]).given =
        [some 0, some 0] ∧
      ∀ x ∈ ((Run.start { w := sampleWorld, pool := NewRandPool }).exec
          [.get .ignore, .draw (some 0), .put (some 0), .get (.take 0)]).given,
        x ∈ ((Run.start { w := sampleWorld, pool := NewRandPool }).exec
          [.get .ignore, .draw (some 0), .put (some 0), .get (.take 0)]).made :=
  ⟨by decide,
    (pool_instances_come_from_factory NewRandPool sampleWorld
      [.get .ignore, .draw (some 0), .put (some 0), .get (.take 0)] (Or.inl rfl)
      (by decide)).2.2.1⟩

end Csmrand
